import Mathlib

/-!
Verification development for the ssdp-rs SSDP library (HTTP-over-UDP
service discovery), relating its specification to the code.

Shallow embedding conventions:
* Rust byte slices and `Vec<u8>` become `List Nat` (each element a byte value).
* Rust `String` payloads become the `List Nat` of their UTF-8 bytes; the
  standard-library conversion `String::from_utf8_lossy` is modelled by
  `utf8Lossy` below, which copies valid sequences verbatim and replaces each
  invalid maximal subpart by the UTF-8 bytes of U+FFFD, following the Rust
  standard library's substitution policy. `utf8Lossy` is defined with an
  explicit fuel argument (any fuel at least the list length) to keep the
  recursion structural.
* Fallible Rust functions returning `Option` / `Result` become `Option` /
  `Except`.
-/

namespace Ssdp


def repBytes : List Nat := [239, 191, 189]

def isCont (b : Nat) : Prop := 128 ≤ b ∧ b ≤ 191

instance (b : Nat) : Decidable (isCont b) := by unfold isCont; infer_instance

def validSecond3 (b0 b1 : Nat) : Prop :=
  (b0 = 224 ∧ 160 ≤ b1 ∧ b1 ≤ 191) ∨
  (b0 = 237 ∧ 128 ≤ b1 ∧ b1 ≤ 159) ∨
  (b0 ≠ 224 ∧ b0 ≠ 237 ∧ isCont b1)

instance (b0 b1 : Nat) : Decidable (validSecond3 b0 b1) := by
  unfold validSecond3; infer_instance

def validSecond4 (b0 b1 : Nat) : Prop :=
  (b0 = 240 ∧ 144 ≤ b1 ∧ b1 ≤ 191) ∨
  (b0 = 244 ∧ 128 ≤ b1 ∧ b1 ≤ 143) ∨
  (b0 ≠ 240 ∧ b0 ≠ 244 ∧ isCont b1)

instance (b0 b1 : Nat) : Decidable (validSecond4 b0 b1) := by
  unfold validSecond4; infer_instance

def lossyGo : Nat → List Nat → List Nat
  | 0, _ => []
  | _ + 1, [] => []
  | fuel + 1, b0 :: t0 =>
    if b0 < 128 then b0 :: lossyGo fuel t0
    else if 194 ≤ b0 ∧ b0 ≤ 223 then
      match t0 with
      | [] => repBytes
      | b1 :: t1 =>
        if isCont b1 then b0 :: b1 :: lossyGo fuel t1
        else repBytes ++ lossyGo fuel (b1 :: t1)
    else if 224 ≤ b0 ∧ b0 ≤ 239 then
      match t0 with
      | [] => repBytes
      | b1 :: t1 =>
        if validSecond3 b0 b1 then
          match t1 with
          | [] => repBytes
          | b2 :: t2 =>
            if isCont b2 then b0 :: b1 :: b2 :: lossyGo fuel t2
            else repBytes ++ lossyGo fuel (b2 :: t2)
        else repBytes ++ lossyGo fuel (b1 :: t1)
    else if 240 ≤ b0 ∧ b0 ≤ 244 then
      match t0 with
      | [] => repBytes
      | b1 :: t1 =>
        if validSecond4 b0 b1 then
          match t1 with
          | [] => repBytes
          | b2 :: t2 =>
            if isCont b2 then
              match t2 with
              | [] => repBytes
              | b3 :: t3 =>
                if isCont b3 then b0 :: b1 :: b2 :: b3 :: lossyGo fuel t3
                else repBytes ++ lossyGo fuel (b3 :: t3)
            else repBytes ++ lossyGo fuel (b2 :: t2)
        else repBytes ++ lossyGo fuel (b1 :: t1)
    else repBytes ++ lossyGo fuel t0

def validGo : Nat → List Nat → Bool
  | 0, _ => true
  | _ + 1, [] => true
  | fuel + 1, b0 :: t0 =>
    if b0 < 128 then validGo fuel t0
    else if 194 ≤ b0 ∧ b0 ≤ 223 then
      match t0 with
      | [] => false
      | b1 :: t1 => if isCont b1 then validGo fuel t1 else false
    else if 224 ≤ b0 ∧ b0 ≤ 239 then
      match t0 with
      | [] => false
      | b1 :: t1 =>
        if validSecond3 b0 b1 then
          match t1 with
          | [] => false
          | b2 :: t2 => if isCont b2 then validGo fuel t2 else false
        else false
    else if 240 ≤ b0 ∧ b0 ≤ 244 then
      match t0 with
      | [] => false
      | b1 :: t1 =>
        if validSecond4 b0 b1 then
          match t1 with
          | [] => false
          | b2 :: t2 =>
            if isCont b2 then
              match t2 with
              | [] => false
              | b3 :: t3 => if isCont b3 then validGo fuel t3 else false
            else false
        else false
    else false

def utf8Lossy (l : List Nat) : List Nat := lossyGo l.length l

def validUtf8 (l : List Nat) : Bool := validGo l.length l

theorem lossyGo_fuel : ∀ n m l, l.length ≤ n → l.length ≤ m →
    lossyGo n l = lossyGo m l := by
  intro n
  induction n with
  | zero =>
    intro m l hn _
    have : l = [] := List.length_eq_zero.mp (Nat.le_zero.mp hn)
    subst this
    cases m <;> rfl
  | succ n ih =>
    intro m l hn hm
    match m, l with
    | 0, l =>
      have : l = [] := List.length_eq_zero.mp (Nat.le_zero.mp hm)
      subst this; rfl
    | m + 1, [] => rfl
    | m + 1, b0 :: t0 =>
      simp only [List.length_cons, Nat.add_le_add_iff_right] at hn hm
      simp only [lossyGo]
      by_cases h0 : b0 < 128
      · simp only [if_pos h0, ih m t0 hn hm]
      simp only [if_neg h0]
      by_cases h2 : 194 ≤ b0 ∧ b0 ≤ 223
      · simp only [if_pos h2]
        cases t0 with
        | nil => rfl
        | cons b1 t1 =>
          simp only [List.length_cons] at hn hm
          by_cases hc : isCont b1
          · simp only [if_pos hc, ih m t1 (by omega) (by omega)]
          · simp only [if_neg hc, ih m (b1 :: t1) (by simp; omega) (by simp; omega)]
      simp only [if_neg h2]
      by_cases h3 : 224 ≤ b0 ∧ b0 ≤ 239
      · simp only [if_pos h3]
        cases t0 with
        | nil => rfl
        | cons b1 t1 =>
          simp only [List.length_cons] at hn hm
          by_cases hs : validSecond3 b0 b1
          · simp only [if_pos hs]
            cases t1 with
            | nil => rfl
            | cons b2 t2 =>
              simp only [List.length_cons] at hn hm
              by_cases hc : isCont b2
              · simp only [if_pos hc, ih m t2 (by omega) (by omega)]
              · simp only [if_neg hc, ih m (b2 :: t2) (by simp; omega) (by simp; omega)]
          · simp only [if_neg hs, ih m (b1 :: t1) (by simp; omega) (by simp; omega)]
      simp only [if_neg h3]
      by_cases h4 : 240 ≤ b0 ∧ b0 ≤ 244
      · simp only [if_pos h4]
        cases t0 with
        | nil => rfl
        | cons b1 t1 =>
          simp only [List.length_cons] at hn hm
          by_cases hs : validSecond4 b0 b1
          · simp only [if_pos hs]
            cases t1 with
            | nil => rfl
            | cons b2 t2 =>
              simp only [List.length_cons] at hn hm
              by_cases hc : isCont b2
              · simp only [if_pos hc]
                cases t2 with
                | nil => rfl
                | cons b3 t3 =>
                  simp only [List.length_cons] at hn hm
                  by_cases hd : isCont b3
                  · simp only [if_pos hd, ih m t3 (by omega) (by omega)]
                  · simp only [if_neg hd, ih m (b3 :: t3) (by simp; omega) (by simp; omega)]
              · simp only [if_neg hc, ih m (b2 :: t2) (by simp; omega) (by simp; omega)]
          · simp only [if_neg hs, ih m (b1 :: t1) (by simp; omega) (by simp; omega)]
      simp only [if_neg h4, ih m t0 hn hm]


theorem lossyGo_of_valid : ∀ n l, l.length ≤ n → validGo n l = true → lossyGo n l = l := by
  intro n
  induction n with
  | zero =>
    intro l hn _
    have : l = [] := List.length_eq_zero.mp (Nat.le_zero.mp hn)
    subst this; rfl
  | succ n ih =>
    intro l hn hv
    cases l with
    | nil => rfl
    | cons b0 t0 =>
      simp only [List.length_cons, Nat.add_le_add_iff_right] at hn
      simp only [lossyGo, validGo] at hv ⊢
      by_cases h0 : b0 < 128
      · simp only [if_pos h0] at hv ⊢
        rw [ih t0 hn hv]
      simp only [if_neg h0] at hv ⊢
      by_cases h2 : 194 ≤ b0 ∧ b0 ≤ 223
      · simp only [if_pos h2] at hv ⊢
        cases t0 with
        | nil => simp at hv
        | cons b1 t1 =>
          simp only [List.length_cons] at hn
          by_cases hc : isCont b1
          · simp only [if_pos hc] at hv ⊢
            rw [ih t1 (by omega) hv]
          · simp only [if_neg hc] at hv
            simp at hv
      simp only [if_neg h2] at hv ⊢
      by_cases h3 : 224 ≤ b0 ∧ b0 ≤ 239
      · simp only [if_pos h3] at hv ⊢
        cases t0 with
        | nil => simp at hv
        | cons b1 t1 =>
          simp only [List.length_cons] at hn
          by_cases hs : validSecond3 b0 b1
          · simp only [if_pos hs] at hv ⊢
            cases t1 with
            | nil => simp at hv
            | cons b2 t2 =>
              simp only [List.length_cons] at hn
              by_cases hc : isCont b2
              · simp only [if_pos hc] at hv ⊢
                rw [ih t2 (by omega) hv]
              · simp only [if_neg hc] at hv
                simp at hv
          · simp only [if_neg hs] at hv
            simp at hv
      simp only [if_neg h3] at hv ⊢
      by_cases h4 : 240 ≤ b0 ∧ b0 ≤ 244
      · simp only [if_pos h4] at hv ⊢
        cases t0 with
        | nil => simp at hv
        | cons b1 t1 =>
          simp only [List.length_cons] at hn
          by_cases hs : validSecond4 b0 b1
          · simp only [if_pos hs] at hv ⊢
            cases t1 with
            | nil => simp at hv
            | cons b2 t2 =>
              simp only [List.length_cons] at hn
              by_cases hc : isCont b2
              · simp only [if_pos hc] at hv ⊢
                cases t2 with
                | nil => simp at hv
                | cons b3 t3 =>
                  simp only [List.length_cons] at hn
                  by_cases hd : isCont b3
                  · simp only [if_pos hd] at hv ⊢
                    rw [ih t3 (by omega) hv]
                  · simp only [if_neg hd] at hv
                    simp at hv
              · simp only [if_neg hc] at hv
                simp at hv
          · simp only [if_neg hs] at hv
            simp at hv
      simp only [if_neg h4] at hv
      simp at hv

theorem validGo_of_ascii : ∀ n l, (∀ b ∈ l, b < 128) → validGo n l = true := by
  intro n
  induction n with
  | zero => intro l _; rfl
  | succ n ih =>
    intro l ha
    cases l with
    | nil => rfl
    | cons b0 t0 =>
      have h0 : b0 < 128 := ha b0 (List.mem_cons_self b0 t0)
      simp only [validGo, if_pos h0]
      exact ih t0 fun b hb => ha b (List.mem_cons_of_mem b0 hb)

theorem lossyGo_ascii_out : ∀ n l, l.length ≤ n →
    (∀ b ∈ lossyGo n l, b < 128) → lossyGo n l = l := by
  intro n
  induction n with
  | zero =>
    intro l hn _
    have : l = [] := List.length_eq_zero.mp (Nat.le_zero.mp hn)
    subst this; rfl
  | succ n ih =>
    intro l hn hout
    cases l with
    | nil => rfl
    | cons b0 t0 =>
      simp only [List.length_cons, Nat.add_le_add_iff_right] at hn
      simp only [lossyGo] at hout ⊢
      by_cases h0 : b0 < 128
      · simp only [if_pos h0] at hout ⊢
        rw [ih t0 hn fun b hb => hout b (List.mem_cons_of_mem b0 hb)]
      exfalso
      simp only [if_neg h0] at hout
      by_cases h2 : 194 ≤ b0 ∧ b0 ≤ 223
      · simp only [if_pos h2] at hout
        cases t0 with
        | nil => exact absurd (hout 239 (by simp [repBytes])) (by omega)
        | cons b1 t1 =>
          by_cases hc : isCont b1
          · simp only [if_pos hc] at hout
            exact absurd (hout b0 (by simp)) (by omega)
          · simp only [if_neg hc] at hout
            exact absurd (hout 239 (by simp [repBytes])) (by omega)
      simp only [if_neg h2] at hout
      by_cases h3 : 224 ≤ b0 ∧ b0 ≤ 239
      · simp only [if_pos h3] at hout
        cases t0 with
        | nil => exact absurd (hout 239 (by simp [repBytes])) (by omega)
        | cons b1 t1 =>
          by_cases hs : validSecond3 b0 b1
          · simp only [if_pos hs] at hout
            cases t1 with
            | nil => exact absurd (hout 239 (by simp [repBytes])) (by omega)
            | cons b2 t2 =>
              by_cases hc : isCont b2
              · simp only [if_pos hc] at hout
                exact absurd (hout b0 (by simp)) (by omega)
              · simp only [if_neg hc] at hout
                exact absurd (hout 239 (by simp [repBytes])) (by omega)
          · simp only [if_neg hs] at hout
            exact absurd (hout 239 (by simp [repBytes])) (by omega)
      simp only [if_neg h3] at hout
      by_cases h4 : 240 ≤ b0 ∧ b0 ≤ 244
      · simp only [if_pos h4] at hout
        cases t0 with
        | nil => exact absurd (hout 239 (by simp [repBytes])) (by omega)
        | cons b1 t1 =>
          by_cases hs : validSecond4 b0 b1
          · simp only [if_pos hs] at hout
            cases t1 with
            | nil => exact absurd (hout 239 (by simp [repBytes])) (by omega)
            | cons b2 t2 =>
              by_cases hc : isCont b2
              · simp only [if_pos hc] at hout
                cases t2 with
                | nil => exact absurd (hout 239 (by simp [repBytes])) (by omega)
                | cons b3 t3 =>
                  by_cases hd : isCont b3
                  · simp only [if_pos hd] at hout
                    exact absurd (hout b0 (by simp)) (by omega)
                  · simp only [if_neg hd] at hout
                    exact absurd (hout 239 (by simp [repBytes])) (by omega)
              · simp only [if_neg hc] at hout
                exact absurd (hout 239 (by simp [repBytes])) (by omega)
          · simp only [if_neg hs] at hout
            exact absurd (hout 239 (by simp [repBytes])) (by omega)
      simp only [if_neg h4] at hout
      exact absurd (hout 239 (by simp [repBytes])) (by omega)

theorem utf8Lossy_of_valid (l : List Nat) (h : validUtf8 l = true) : utf8Lossy l = l :=
  lossyGo_of_valid l.length l le_rfl h

theorem utf8Lossy_of_ascii (l : List Nat) (h : ∀ b ∈ l, b < 128) : utf8Lossy l = l :=
  lossyGo_of_valid l.length l le_rfl (validGo_of_ascii l.length l h)

theorem utf8Lossy_ascii_out (l : List Nat) (h : ∀ b ∈ utf8Lossy l, b < 128) :
    utf8Lossy l = l :=
  lossyGo_ascii_out l.length l le_rfl h

theorem utf8Lossy_cons_ascii (b : Nat) (t : List Nat) (h : b < 128) :
    utf8Lossy (b :: t) = b :: utf8Lossy t := by
  simp only [utf8Lossy, List.length_cons, lossyGo, if_pos h]

theorem utf8Lossy_nil : utf8Lossy [] = [] := rfl



/-! ## `src/field.rs` : `FieldMap` -/

/-- `field::PAIR_SEPARATOR`, the byte of the colon character. -/
def PAIR_SEPARATOR : Nat := 58

/-- Bytes of the `"upnp"` field-key literal of `src/field.rs`. -/
def upnpKeyBytes : List Nat := [117, 112, 110, 112]

/-- Bytes of the `"uuid"` field-key literal of `src/field.rs`. -/
def uuidKeyBytes : List Nat := [117, 117, 105, 100]

/-- Bytes of the `"urn"` field-key literal of `src/field.rs`. -/
def urnKeyBytes : List Nat := [117, 114, 110]

/-- Model of Rust `Iterator::position`: index of the first element
satisfying the predicate. -/
def position (p : Nat → Bool) : List Nat → Option Nat
  | [] => none
  | b :: t => if p b then some 0 else (position p t).map (· + 1)

/-- `FieldMap` from `src/field.rs`; each textual payload is the UTF-8 byte
list of the Rust `String` it holds. -/
inductive FieldMap
  | UPnP (v : List Nat)
  | UUID (v : List Nat)
  | URN (v : List Nat)
  | Unknown (k v : List Nat)
deriving DecidableEq, Repr

/-- `FieldMap::parse_bytes` from `src/field.rs`: split at the first colon,
reject an empty key or value, classify the key against the `uuid` / `urn` /
`upnp` literals after lossy UTF-8 conversion of both sides. -/
def FieldMap.parse_bytes (field : List Nat) : Option FieldMap :=
  match position (fun b => b == PAIR_SEPARATOR) field with
  | none => none
  | some splitIndex =>
    let key := field.take splitIndex
    let value := field.drop (splitIndex + 1)
    if key.length = 0 ∨ value.length = 0 then none
    else
      let keyStr := utf8Lossy key
      let valueStr := utf8Lossy value
      if keyStr = uuidKeyBytes then some (FieldMap.UUID valueStr)
      else if keyStr = urnKeyBytes then some (FieldMap.URN valueStr)
      else if keyStr = upnpKeyBytes then some (FieldMap.UPnP valueStr)
      else some (FieldMap.Unknown keyStr valueStr)

/-- `FieldMap::new` from `src/field.rs` (a `&str` argument is handed to
`parse_bytes` as its bytes). -/
def FieldMap.new (value : List Nat) : Option FieldMap :=
  FieldMap.parse_bytes value

/-- The `Display` implementation for `FieldMap` from `src/field.rs`:
classification key, colon, then the value (for `Unknown`, the stored key). -/
def FieldMap.fmt : FieldMap → List Nat
  | FieldMap.UPnP v => upnpKeyBytes ++ PAIR_SEPARATOR :: v
  | FieldMap.UUID v => uuidKeyBytes ++ PAIR_SEPARATOR :: v
  | FieldMap.URN v => urnKeyBytes ++ PAIR_SEPARATOR :: v
  | FieldMap.Unknown k v => k ++ PAIR_SEPARATOR :: v

theorem position_append_sep (k v : List Nat) (hk : ∀ b ∈ k, b ≠ PAIR_SEPARATOR) :
    position (fun b => b == PAIR_SEPARATOR) (k ++ PAIR_SEPARATOR :: v) = some k.length := by
  induction k with
  | nil => simp [position]
  | cons a t ih =>
    have ha : a ≠ PAIR_SEPARATOR := hk a (List.mem_cons_self a t)
    have ih2 := ih fun b hb => hk b (List.mem_cons_of_mem a hb)
    simp [position, ha, ih2]

theorem take_append_len (k r : List Nat) : (k ++ r).take k.length = k := by
  simp

theorem drop_append_len_succ (k : List Nat) (b : Nat) (r : List Nat) :
    (k ++ b :: r).drop (k.length + 1) = r := by
  induction k with
  | nil => rfl
  | cons a t ih => simp [ih]

/-- Well-formedness of a `FieldMap` value constructed through the public
constructors: the payloads are (UTF-8 bytes of) Rust strings, the value is
non-empty, and an `Unknown` key is non-empty, free of colons and distinct
from the three reserved classification keys. -/
def FieldMap.wf : FieldMap → Prop
  | FieldMap.UPnP v => v ≠ [] ∧ validUtf8 v = true
  | FieldMap.UUID v => v ≠ [] ∧ validUtf8 v = true
  | FieldMap.URN v => v ≠ [] ∧ validUtf8 v = true
  | FieldMap.Unknown k v => k ≠ [] ∧ v ≠ [] ∧ validUtf8 k = true ∧ validUtf8 v = true ∧
      (∀ b ∈ k, b ≠ PAIR_SEPARATOR) ∧
      k ≠ uuidKeyBytes ∧ k ≠ urnKeyBytes ∧ k ≠ upnpKeyBytes

instance (x : FieldMap) : Decidable (FieldMap.wf x) := by
  unfold FieldMap.wf
  cases x <;> infer_instance


theorem utf8Lossy_upnpKey : utf8Lossy upnpKeyBytes = upnpKeyBytes := by decide

theorem utf8Lossy_uuidKey : utf8Lossy uuidKeyBytes = uuidKeyBytes := by decide

theorem utf8Lossy_urnKey : utf8Lossy urnKeyBytes = urnKeyBytes := by decide

/-- Behaviour of `FieldMap::parse_bytes` on an input presented as
`key ++ colon :: value` with a colon-free key: the split happens exactly at
that colon. -/
theorem parse_bytes_split (k v : List Nat) (hk : ∀ b ∈ k, b ≠ PAIR_SEPARATOR) :
    FieldMap.parse_bytes (k ++ PAIR_SEPARATOR :: v) =
      (if k.length = 0 ∨ v.length = 0 then none
      else if utf8Lossy k = uuidKeyBytes then some (FieldMap.UUID (utf8Lossy v))
      else if utf8Lossy k = urnKeyBytes then some (FieldMap.URN (utf8Lossy v))
      else if utf8Lossy k = upnpKeyBytes then some (FieldMap.UPnP (utf8Lossy v))
      else some (FieldMap.Unknown (utf8Lossy k) (utf8Lossy v))) := by
  unfold FieldMap.parse_bytes
  rw [position_append_sep k v hk]
  simp only [take_append_len, drop_append_len_succ]

/-- Round-trip of well-formed `FieldMap` values through format-then-parse. -/
theorem parse_bytes_fmt_of_wf (x : FieldMap) (h : FieldMap.wf x) :
    FieldMap.parse_bytes (FieldMap.fmt x) = some x := by
  cases x with
  | UPnP v =>
    obtain ⟨hv, hval⟩ := h
    rw [FieldMap.fmt, parse_bytes_split upnpKeyBytes v (by decide)]
    simp [utf8Lossy_upnpKey, utf8Lossy_of_valid v hval, hv,
      (by decide : upnpKeyBytes ≠ uuidKeyBytes), (by decide : upnpKeyBytes ≠ urnKeyBytes),
      (by decide : upnpKeyBytes.length = 4)]
  | UUID v =>
    obtain ⟨hv, hval⟩ := h
    rw [FieldMap.fmt, parse_bytes_split uuidKeyBytes v (by decide)]
    simp [utf8Lossy_uuidKey, utf8Lossy_of_valid v hval, hv,
      (by decide : uuidKeyBytes.length = 4)]
  | URN v =>
    obtain ⟨hv, hval⟩ := h
    rw [FieldMap.fmt, parse_bytes_split urnKeyBytes v (by decide)]
    simp [utf8Lossy_urnKey, utf8Lossy_of_valid v hval, hv,
      (by decide : urnKeyBytes ≠ uuidKeyBytes), (by decide : urnKeyBytes.length = 3)]
  | Unknown k v =>
    obtain ⟨hk, hv, hkval, hvval, hkc, hku, hkr, hkp⟩ := h
    rw [FieldMap.fmt, parse_bytes_split k v hkc]
    simp [utf8Lossy_of_valid k hkval, utf8Lossy_of_valid v hvval, hk, hv, hku, hkr, hkp]


/-! ## `src/header/usn.rs` : the `USN` header -/

/-- The state-passing loop inside `partition_pairs` of `src/header/usn.rs`:
Rust's `Iterator::partition` applied to the closure over the mutable state
`second_partition` / `last_byte`.  An element goes to the first component
while the closure returns `true`; the closure flips `second_partition` when
the pair (previous byte, current byte) spells `"::"` and still claims the
current element for the first component. -/
def partitionSplit : Nat → Bool → List Nat → List Nat × List Nat
  | _, _, [] => ([], [])
  | lastByte, secondPartition, n :: rest =>
    if secondPartition then
      let p := partitionSplit lastByte secondPartition rest
      (p.1, n :: p.2)
    else
      let sp := decide (lastByte = PAIR_SEPARATOR ∧ n = PAIR_SEPARATOR)
      let p := partitionSplit n sp rest
      (n :: p.1, p.2)

/-- One round of the strip loop in `partition_pairs`: drop the final byte
when it is a colon. -/
def stripOneColon (l : List Nat) : List Nat :=
  match l.getLast? with
  | some b => if b = PAIR_SEPARATOR then l.dropLast else l
  | none => l

/-- The `for _ in 0..2` strip loop of `partition_pairs`: remove up to two
trailing colons. -/
def stripTwoColons (l : List Nat) : List Nat := stripOneColon (stripOneColon l)

/-- `partition_pairs` from `src/header/usn.rs`. -/
def partition_pairs (l : List Nat) : Option (List Nat × Option (List Nat)) :=
  match l with
  | [] => none
  | firstByte :: _ =>
    let p := partitionSplit firstByte false l
    let f := stripTwoColons p.1
    match f.isEmpty, p.2.isEmpty with
    | false, false => some (f, some p.2)
    | false, true => some (f, none)
    | _, _ => none

/-- The `USN` header value of `src/header/usn.rs`: one mandatory and one
optional `FieldMap`. -/
structure USN where
  fst : FieldMap
  snd : Option FieldMap
deriving DecidableEq, Repr

/-- `USN::parse_header` from `src/header/usn.rs`: single-line check,
`partition_pairs`, then `FieldMap::new` on each part; a failed parse of the
second part leaves the optional component empty, a failed parse of the
first part fails the header. -/
def USN.parse_header (raw : List (List Nat)) : Option USN :=
  match raw with
  | [line] =>
    match partition_pairs line with
    | some (n, some u) =>
      match FieldMap.new n with
      | some f => some (USN.mk f (FieldMap.new u))
      | none => none
    | some (n, none) =>
      match FieldMap.new n with
      | some f => some (USN.mk f none)
      | none => none
    | none => none
  | _ => none

/-- Spec-side split: position of the first two consecutive colons, returning
the part strictly before them and the part strictly after them. -/
def findDoubleColon : List Nat → Option (List Nat × List Nat)
  | a :: b :: rest =>
    if a = PAIR_SEPARATOR ∧ b = PAIR_SEPARATOR then some ([], rest)
    else
      match findDoubleColon (b :: rest) with
      | some (f, s) => some (a :: f, s)
      | none => none
  | _ => none

/-- The USN parse as worded by the specification (with the second pair
folded to absence when it fails to parse): split at the first `"::"`, strip
up to two trailing colons from the first part, fail when the first part is
empty or does not parse, parse the second part when it is non-empty. -/
def usnSpecParse (line : List Nat) : Option USN :=
  let split :=
    match findDoubleColon line with
    | some (f, s) => (f, s)
    | none => (line, ([] : List Nat))
  let first := stripTwoColons split.1
  if first = [] then none
  else
    match FieldMap.parse_bytes first with
    | none => none
    | some f =>
      if split.2 = [] then some (USN.mk f none)
      else some (USN.mk f (FieldMap.parse_bytes split.2))

theorem partitionSplit_true (l : List Nat) (lastByte : Nat) :
    partitionSplit lastByte true l = ([], l) := by
  induction l with
  | nil => rfl
  | cons n rest ih => simp [partitionSplit, ih]

/-- First-occurrence search equivalent to the partition loop when the flag
is still down: the first component keeps everything up to and including the
second colon of the first `"::"` pair (including the pair formed with the
incoming previous byte). -/
def splitFrom (prev : Nat) : List Nat → Option (List Nat × List Nat)
  | [] => none
  | n :: rest =>
    if prev = PAIR_SEPARATOR ∧ n = PAIR_SEPARATOR then some ([n], rest)
    else
      match splitFrom n rest with
      | some (f, s) => some (n :: f, s)
      | none => none

theorem partitionSplit_false (l : List Nat) : ∀ prev,
    partitionSplit prev false l =
      match splitFrom prev l with
      | some (f, s) => (f, s)
      | none => (l, []) := by
  induction l with
  | nil => intro prev; rfl
  | cons n rest ih =>
    intro prev
    by_cases h : prev = PAIR_SEPARATOR ∧ n = PAIR_SEPARATOR
    · simp [partitionSplit, splitFrom, h, partitionSplit_true]
    · simp only [partitionSplit, splitFrom, if_neg h, decide_eq_true_eq, h, decide_False]
      rw [ih n]
      cases hs : splitFrom n rest with
      | none => simp [hs]
      | some p => cases p; simp [hs]


theorem findDC_splitFrom : ∀ (t : List Nat) (prev : Nat),
    (findDoubleColon (prev :: t) = none → splitFrom prev t = none) ∧
    (∀ bf af, findDoubleColon (prev :: t) = some (bf, af) →
      ∃ sf, splitFrom prev t = some (sf, af) ∧
        prev :: sf = bf ++ [PAIR_SEPARATOR, PAIR_SEPARATOR]) := by
  intro t
  induction t with
  | nil =>
    intro prev
    refine ⟨fun _ => rfl, fun bf af h => ?_⟩
    simp [findDoubleColon] at h
  | cons n rest ih =>
    intro prev
    by_cases h : prev = PAIR_SEPARATOR ∧ n = PAIR_SEPARATOR
    · refine ⟨fun hn => ?_, fun bf af hs => ?_⟩
      · simp [findDoubleColon, h] at hn
      · simp only [findDoubleColon, if_pos h, Option.some.injEq, Prod.mk.injEq] at hs
        obtain ⟨hbf, haf⟩ := hs
        subst hbf
        subst haf
        refine ⟨[n], by simp [splitFrom, h], ?_⟩
        simp [h.1, h.2]
    · refine ⟨fun hn => ?_, fun bf af hs => ?_⟩
      · simp only [findDoubleColon, if_neg h] at hn
        cases hd : findDoubleColon (n :: rest) with
        | some p => rw [hd] at hn; obtain ⟨a, b⟩ := p; simp at hn
        | none =>
          have h2 := (ih n).1 hd
          simp [splitFrom, if_neg h, h2]
      · simp only [findDoubleColon, if_neg h] at hs
        cases hd : findDoubleColon (n :: rest) with
        | none => rw [hd] at hs; simp at hs
        | some p =>
          obtain ⟨bf2, af2⟩ := p
          rw [hd] at hs
          simp only [Option.some.injEq, Prod.mk.injEq] at hs
          obtain ⟨hbf, haf⟩ := hs
          obtain ⟨sf, hsf, hrel⟩ := (ih n).2 bf2 af2 hd
          refine ⟨n :: sf, ?_, ?_⟩
          · rw [haf] at hsf
            simp [splitFrom, if_neg h, hsf]
          · rw [← hbf]
            simp only [List.cons_append]
            rw [← hrel]
  
theorem findDC_head_colon : ∀ (l : List Nat) (af : List Nat),
    findDoubleColon l = some ([], af) → l.head? = some PAIR_SEPARATOR := by
  intro l af h
  match l with
  | [] => simp [findDoubleColon] at h
  | [a] => simp [findDoubleColon] at h
  | a :: b :: rest =>
    by_cases hab : a = PAIR_SEPARATOR ∧ b = PAIR_SEPARATOR
    · simp [hab.1]
    · simp only [findDoubleColon, if_neg hab] at h
      cases hd : findDoubleColon (b :: rest) with
      | none => rw [hd] at h; simp at h
      | some p => rw [hd] at h; obtain ⟨x, y⟩ := p; simp at h

theorem findDC_first_no_trailing : ∀ (l bf af : List Nat),
    findDoubleColon l = some (bf, af) → bf.getLast? ≠ some PAIR_SEPARATOR := by
  intro l
  induction l with
  | nil => intro bf af h; simp [findDoubleColon] at h
  | cons a t ih =>
    intro bf af h
    cases t with
    | nil => simp [findDoubleColon] at h
    | cons b rest =>
      by_cases hab : a = PAIR_SEPARATOR ∧ b = PAIR_SEPARATOR
      · simp only [findDoubleColon, if_pos hab, Option.some.injEq, Prod.mk.injEq] at h
        rw [← h.1]
        simp
      · simp only [findDoubleColon, if_neg hab] at h
        cases hd : findDoubleColon (b :: rest) with
        | none => rw [hd] at h; simp at h
        | some p =>
          obtain ⟨bf2, af2⟩ := p
          rw [hd] at h
          simp only [Option.some.injEq, Prod.mk.injEq] at h
          obtain ⟨hbf, haf⟩ := h
          cases bf2 with
          | nil =>
            have hb : b = PAIR_SEPARATOR := by
              simpa using findDC_head_colon (b :: rest) af2 hd
            have ha : a ≠ PAIR_SEPARATOR := fun hc => hab ⟨hc, hb⟩
            rw [← hbf]
            simpa using ha
          | cons c cs =>
            rw [← hbf, List.getLast?_cons_cons]
            exact ih (c :: cs) af2 hd

theorem stripOneColon_concat_colon (l : List Nat) :
    stripOneColon (l ++ [PAIR_SEPARATOR]) = l := by
  unfold stripOneColon
  rw [List.getLast?_concat]
  simp

theorem stripTwoColons_concat_two (l : List Nat) :
    stripTwoColons (l ++ [PAIR_SEPARATOR, PAIR_SEPARATOR]) = l := by
  have h : l ++ [PAIR_SEPARATOR, PAIR_SEPARATOR] = (l ++ [PAIR_SEPARATOR]) ++ [PAIR_SEPARATOR] := by
    simp
  rw [stripTwoColons, h, stripOneColon_concat_colon, stripOneColon_concat_colon]

theorem stripOneColon_no_trailing (l : List Nat) (h : l.getLast? ≠ some PAIR_SEPARATOR) :
    stripOneColon l = l := by
  unfold stripOneColon
  cases hg : l.getLast? with
  | none => rfl
  | some b =>
    have hb : b ≠ PAIR_SEPARATOR := fun hc => h (by rw [hg, hc])
    simp [hb]

theorem stripTwoColons_no_trailing (l : List Nat) (h : l.getLast? ≠ some PAIR_SEPARATOR) :
    stripTwoColons l = l := by
  rw [stripTwoColons, stripOneColon_no_trailing l h, stripOneColon_no_trailing l h]

theorem parse_bytes_colon_head (x : List Nat) :
    FieldMap.parse_bytes (PAIR_SEPARATOR :: x) = none := by
  simp [FieldMap.parse_bytes, position]

theorem stripOneColon_head (a : Nat) (f : List Nat) :
    stripOneColon (a :: f) = [] ∨ ∃ g, stripOneColon (a :: f) = a :: g := by
  unfold stripOneColon
  cases hg : (a :: f).getLast? with
  | none => exact Or.inr ⟨f, rfl⟩
  | some b =>
    by_cases hb : b = PAIR_SEPARATOR
    · simp only [hb, if_pos rfl]
      cases f with
      | nil => exact Or.inl (by simp)
      | cons c cs =>
        right
        refine ⟨(c :: cs).dropLast, ?_⟩
        simp
    · simp only [if_neg hb]
      exact Or.inr ⟨f, rfl⟩

theorem stripTwoColons_head (a : Nat) (f : List Nat) :
    stripTwoColons (a :: f) = [] ∨ ∃ g, stripTwoColons (a :: f) = a :: g := by
  rw [stripTwoColons]
  rcases stripOneColon_head a f with h | ⟨g, hg⟩
  · rw [h]
    exact Or.inl rfl
  · rw [hg]
    exact stripOneColon_head a g

theorem findDC_cons_shape (a : Nat) (t bf af : List Nat)
    (h : findDoubleColon (a :: t) = some (bf, af)) :
    bf = [] ∨ ∃ f2, bf = a :: f2 := by
  cases t with
  | nil => simp [findDoubleColon] at h
  | cons b rest =>
    by_cases hab : a = PAIR_SEPARATOR ∧ b = PAIR_SEPARATOR
    · simp only [findDoubleColon, if_pos hab, Option.some.injEq, Prod.mk.injEq] at h
      exact Or.inl h.1.symm
    · simp only [findDoubleColon, if_neg hab] at h
      cases hd : findDoubleColon (b :: rest) with
      | none => rw [hd] at h; simp at h
      | some p =>
        obtain ⟨bf2, af2⟩ := p
        rw [hd] at h
        simp only [Option.some.injEq, Prod.mk.injEq] at h
        exact Or.inr ⟨bf2, h.1.symm⟩

/-- A first part beginning with a colon never survives the spec-side parse:
stripping only touches the tail, and `FieldMap` rejects an empty key. -/
theorem usnSpecParse_first_colon_head (first2 : List Nat) (x : List Nat)
    (h : stripTwoColons (PAIR_SEPARATOR :: x) = first2) :
    first2 = [] ∨ FieldMap.parse_bytes first2 = none := by
  rcases stripTwoColons_head PAIR_SEPARATOR x with h2 | ⟨g, hg⟩
  · rw [← h, h2]
    exact Or.inl rfl
  · rw [← h, hg]
    exact Or.inr (parse_bytes_colon_head g)

theorem usnSpecParse_leading_colon (t : List Nat) :
    usnSpecParse (PAIR_SEPARATOR :: t) = none := by
  unfold usnSpecParse
  cases hd : findDoubleColon (PAIR_SEPARATOR :: t) with
  | none =>
    simp only
    rcases usnSpecParse_first_colon_head (stripTwoColons (PAIR_SEPARATOR :: t)) t rfl with h | h
    · rw [h]
      simp
    · by_cases he : stripTwoColons (PAIR_SEPARATOR :: t) = []
      · simp [he]
      · simp only [if_neg he, h]
  | some p =>
    obtain ⟨bf, af⟩ := p
    simp only
    rcases findDC_cons_shape PAIR_SEPARATOR t bf af hd with hbf | ⟨f2, hbf⟩
    · subst hbf
      simp [stripTwoColons, stripOneColon]
    · subst hbf
      rcases usnSpecParse_first_colon_head (stripTwoColons (PAIR_SEPARATOR :: f2)) f2 rfl with h | h
      · rw [h]
        simp
      · by_cases he : stripTwoColons (PAIR_SEPARATOR :: f2) = []
        · simp [he]
        · simp only [if_neg he, h]


/-- The `USN` parse of `src/header/usn.rs` computes exactly the
specification-worded split-and-parse. -/
theorem usn_parse_eq_spec (line : List Nat) :
    USN.parse_header [line] = usnSpecParse line := by
  cases line with
  | nil => rfl
  | cons b0 t0 =>
    by_cases hb : b0 = PAIR_SEPARATOR
    · subst hb
      rw [usnSpecParse_leading_colon]
      simp [USN.parse_header, partition_pairs, partitionSplit, partitionSplit_true,
        stripTwoColons, stripOneColon]
    · have hsp : decide (b0 = PAIR_SEPARATOR ∧ b0 = PAIR_SEPARATOR) = false := by
        simp [hb]
      have hps : partitionSplit b0 false (b0 :: t0) =
          (b0 :: (partitionSplit b0 false t0).1, (partitionSplit b0 false t0).2) := by
        simp only [partitionSplit, Bool.false_eq_true, if_false, hsp]
      cases hd : findDoubleColon (b0 :: t0) with
      | none =>
        have hsf : splitFrom b0 t0 = none := (findDC_splitFrom t0 b0).1 hd
        have hp : partitionSplit b0 false t0 = (t0, []) := by
          rw [partitionSplit_false t0 b0, hsf]
        rw [hp] at hps
        unfold USN.parse_header partition_pairs usnSpecParse
        simp only [hd, hps]
        cases hfe : stripTwoColons (b0 :: t0) with
        | nil => simp
        | cons a g =>
          cases hpr : FieldMap.parse_bytes (a :: g) with
          | none => simp [FieldMap.new, hpr]
          | some f => simp [FieldMap.new, hpr]
      | some p =>
        obtain ⟨bf, af⟩ := p
        obtain ⟨sf, hsf, hrel⟩ := (findDC_splitFrom t0 b0).2 bf af hd
        have hp : partitionSplit b0 false t0 = (sf, af) := by
          rw [partitionSplit_false t0 b0, hsf]
        rw [hp] at hps
        have hbs : b0 :: sf = bf ++ [PAIR_SEPARATOR, PAIR_SEPARATOR] := hrel
        have hstrip : stripTwoColons (b0 :: sf) = bf := by
          rw [hbs, stripTwoColons_concat_two]
        have hbf_strip : stripTwoColons bf = bf :=
          stripTwoColons_no_trailing bf (findDC_first_no_trailing (b0 :: t0) bf af hd)
        unfold USN.parse_header partition_pairs usnSpecParse
        simp only [hd, hps, hstrip, hbf_strip]
        cases bf with
        | nil => simp
        | cons a g =>
          cases hpr : FieldMap.parse_bytes (a :: g) with
          | none =>
            cases af with
            | nil => simp [FieldMap.new, hpr]
            | cons c cs => simp [FieldMap.new, hpr]
          | some f =>
            cases af with
            | nil => simp [FieldMap.new, hpr]
            | cons c cs => simp [FieldMap.new, hpr]


/-! ## Rust integer parsing (`from_str_radix`, radix 10) and the numeric
SSDP headers (`src/header/mx.rs`, `searchport.rs`, `bootid.rs`,
`configid.rs`) -/

/-- Decimal digit value of a byte, as used by Rust `char::to_digit(10)`. -/
def digitVal (b : Nat) : Option Nat :=
  if 48 ≤ b ∧ b ≤ 57 then some (b - 48) else none

/-- Digit-accumulation loop of Rust `from_str_radix` for an unsigned type
with maximum `bound`, with checked multiply/add. -/
def goDigitsU (bound : Nat) : Nat → List Nat → Option Nat
  | acc, [] => some acc
  | acc, b :: t =>
    match digitVal b with
    | none => none
    | some d => if acc * 10 + d ≤ bound then goDigitsU bound (acc * 10 + d) t else none

/-- Digit-accumulation loop of Rust `i32::from_str_radix` on the negative
branch (checked `acc * 10 - d` against `i32::MIN`), tracking the magnitude. -/
def goDigitsNeg : Nat → List Nat → Option Nat
  | m, [] => some m
  | m, b :: t =>
    match digitVal b with
    | none => none
    | some d => if m * 10 + d ≤ 2147483648 then goDigitsNeg (m * 10 + d) t else none

/-- Rust `from_str_radix` (radix 10) for an unsigned integer type with
maximum value `bound`: optional leading `+`, at least one digit, a leading
`-` never parses (it is not a digit). -/
def from_str_radix_unsigned (bound : Nat) (s : List Nat) : Option Nat :=
  match s with
  | [] => none
  | b :: rest =>
    if (b = 43 ∨ b = 45) ∧ rest = [] then none
    else if b = 43 then goDigitsU bound 0 rest
    else goDigitsU bound 0 s

/-- Rust `i32::from_str_radix` (radix 10): optional sign, at least one
digit, checked against the `i32` range. -/
def from_str_radix_i32 (s : List Nat) : Option Int :=
  match s with
  | [] => none
  | b :: rest =>
    if (b = 43 ∨ b = 45) ∧ rest = [] then none
    else if b = 43 then (goDigitsU 2147483647 0 rest).map Int.ofNat
    else if b = 45 then (goDigitsNeg 0 rest).map (fun m => -(Int.ofNat m))
    else (goDigitsU 2147483647 0 s).map Int.ofNat

def MX_HEADER_MIN : Nat := 1

def MX_HEADER_MAX : Nat := 120

/-- The `MX` header value of `src/header/mx.rs` (a `u8` in the source). -/
structure MX where
  val : Nat
deriving DecidableEq, Repr

/-- `MX::parse_header`: single line, lossy conversion, `u8::from_str_radix`,
then the 1 ..= 120 bound check. -/
def MX.parse_header (raw : List (List Nat)) : Option MX :=
  match raw with
  | [line] =>
    match from_str_radix_unsigned 255 (utf8Lossy line) with
    | some n => if MX_HEADER_MIN ≤ n ∧ n ≤ MX_HEADER_MAX then some (MX.mk n) else none
    | none => none
  | _ => none

def SEARCHPORT_MIN_VALUE : Nat := 49152

def SEARCHPORT_MAX_VALUE : Nat := 65535

/-- The `SearchPort` header value of `src/header/searchport.rs` (a `u16`). -/
structure SearchPort where
  val : Nat
deriving DecidableEq, Repr

/-- `SearchPort::parse_header`: single line, lossy conversion,
`u16::from_str_radix`, then the 49152 ..= 65535 bound check. -/
def SearchPort.parse_header (raw : List (List Nat)) : Option SearchPort :=
  match raw with
  | [line] =>
    match from_str_radix_unsigned 65535 (utf8Lossy line) with
    | some n =>
      if n ≤ SEARCHPORT_MAX_VALUE ∧ SEARCHPORT_MIN_VALUE ≤ n then some (SearchPort.mk n)
      else none
    | none => none
  | _ => none

/-- The `BootID` header value of `src/header/bootid.rs` (a `u32` holding a
non-negative `i32`). -/
structure BootID where
  val : Nat
deriving DecidableEq, Repr

/-- `BootID::parse_header`: single line, lossy conversion,
`i32::from_str_radix`, reject negative values, cast to `u32`. -/
def BootID.parse_header (raw : List (List Nat)) : Option BootID :=
  match raw with
  | [line] =>
    match from_str_radix_i32 (utf8Lossy line) with
    | some v => if v < 0 then none else some (BootID.mk v.toNat)
    | none => none
  | _ => none

/-- The `ConfigID` header value of `src/header/configid.rs` (a `u32` holding
a non-negative `i32`). -/
structure ConfigID where
  val : Nat
deriving DecidableEq, Repr

/-- `ConfigID::parse_header`: identical logic to `BootID::parse_header`. -/
def ConfigID.parse_header (raw : List (List Nat)) : Option ConfigID :=
  match raw with
  | [line] =>
    match from_str_radix_i32 (utf8Lossy line) with
    | some v => if v < 0 then none else some (ConfigID.mk v.toNat)
    | none => none
  | _ => none

/-- ASCII decimal rendering of a natural number (the Rust `Display` output
for unsigned integers). -/
def toDecimalBytes (n : Nat) : List Nat :=
  if n = 0 then [48] else ((Nat.digits 10 n).reverse).map (fun d => d + 48)


theorem goDigitsU_correct (bound : Nat) : ∀ (ds : List Nat) (acc : Nat),
    (∀ d ∈ ds, d < 10) →
    acc * 10 ^ ds.length + Nat.ofDigits 10 ds.reverse ≤ bound →
    goDigitsU bound acc (ds.map (fun d => d + 48)) =
      some (acc * 10 ^ ds.length + Nat.ofDigits 10 ds.reverse) := by
  intro ds
  induction ds with
  | nil =>
    intro acc _ _
    simp [goDigitsU, Nat.ofDigits]
  | cons d ds ih =>
    intro acc hds hb
    have hd : d < 10 := hds d (List.mem_cons_self d ds)
    have hval : digitVal (d + 48) = some d := by
      unfold digitVal
      rw [if_pos (by omega)]
      simp
    have hofd : Nat.ofDigits 10 (d :: ds).reverse =
        Nat.ofDigits 10 ds.reverse + 10 ^ ds.length * d := by
      rw [List.reverse_cons, Nat.ofDigits_append]
      simp [Nat.ofDigits]
    have hkey : acc * 10 ^ (d :: ds).length + Nat.ofDigits 10 (d :: ds).reverse =
        (acc * 10 + d) * 10 ^ ds.length + Nat.ofDigits 10 ds.reverse := by
      rw [hofd, List.length_cons, pow_succ]
      ring
    have hpow : 1 ≤ 10 ^ ds.length := Nat.one_le_pow _ _ (by norm_num)
    have hle : acc * 10 + d ≤ bound := by
      have h1 : acc * 10 + d ≤ (acc * 10 + d) * 10 ^ ds.length := by
        calc acc * 10 + d = (acc * 10 + d) * 1 := by ring
        _ ≤ (acc * 10 + d) * 10 ^ ds.length := Nat.mul_le_mul_left _ hpow
      have h2 : (acc * 10 + d) * 10 ^ ds.length + Nat.ofDigits 10 ds.reverse ≤ bound := by
        rw [← hkey]
        exact hb
      omega
    rw [hkey]
    simp only [List.map_cons, goDigitsU, hval, if_pos hle]
    exact ih (acc * 10 + d) (fun x hx => hds x (List.mem_cons_of_mem d hx)) (by rw [← hkey]; exact hb)


theorem goDigitsU_le (bound : Nat) : ∀ (l : List Nat) (acc v : Nat), acc ≤ bound →
    goDigitsU bound acc l = some v → v ≤ bound := by
  intro l
  induction l with
  | nil =>
    intro acc v ha h
    simp only [goDigitsU, Option.some.injEq] at h
    omega
  | cons b t ih =>
    intro acc v ha h
    simp only [goDigitsU] at h
    cases hd : digitVal b with
    | none => rw [hd] at h; simp at h
    | some d =>
      rw [hd] at h
      simp only at h
      by_cases hle : acc * 10 + d ≤ bound
      · rw [if_pos hle] at h
        exact ih (acc * 10 + d) v hle h
      · rw [if_neg hle] at h
        simp at h

theorem goDigitsU_digits (bound : Nat) : ∀ (l : List Nat) (acc v : Nat),
    goDigitsU bound acc l = some v → ∀ b ∈ l, 48 ≤ b ∧ b ≤ 57 := by
  intro l
  induction l with
  | nil => intro acc v _ b hb; simp at hb
  | cons c t ih =>
    intro acc v h b hb
    simp only [goDigitsU] at h
    cases hd : digitVal c with
    | none => rw [hd] at h; simp at h
    | some d =>
      rw [hd] at h
      simp only at h
      by_cases hle : acc * 10 + d ≤ bound
      · rw [if_pos hle] at h
        rcases List.mem_cons.mp hb with hb | hb
        · subst hb
          unfold digitVal at hd
          by_cases hc : 48 ≤ b ∧ b ≤ 57
          · exact hc
          · rw [if_neg hc] at hd; simp at hd
        · exact ih (acc * 10 + d) v h b hb
      · rw [if_neg hle] at h
        simp at h

theorem goDigitsNeg_mono : ∀ (l : List Nat) (m v : Nat),
    goDigitsNeg m l = some v → m ≤ v := by
  intro l
  induction l with
  | nil =>
    intro m v h
    simp only [goDigitsNeg, Option.some.injEq] at h
    omega
  | cons b t ih =>
    intro m v h
    simp only [goDigitsNeg] at h
    cases hd : digitVal b with
    | none => rw [hd] at h; simp at h
    | some d =>
      rw [hd] at h
      simp only at h
      by_cases hle : m * 10 + d ≤ 2147483648
      · rw [if_pos hle] at h
        have := ih (m * 10 + d) v h
        omega
      · rw [if_neg hle] at h
        simp at h

theorem goDigitsNeg_zeros : ∀ (l : List Nat), (∀ b ∈ l, b = 48) →
    goDigitsNeg 0 l = some 0 := by
  intro l
  induction l with
  | nil => intro _; rfl
  | cons b t ih =>
    intro hz
    have hb : b = 48 := hz b (List.mem_cons_self b t)
    subst hb
    simp only [goDigitsNeg, digitVal]
    norm_num
    exact ih fun x hx => hz x (List.mem_cons_of_mem 48 hx)

theorem goDigitsNeg_eq_zero : ∀ (l : List Nat),
    goDigitsNeg 0 l = some 0 → ∀ b ∈ l, b = 48 := by
  intro l
  induction l with
  | nil => intro _ b hb; simp at hb
  | cons c t ih =>
    intro h b hb
    simp only [goDigitsNeg] at h
    cases hd : digitVal c with
    | none => rw [hd] at h; simp at h
    | some d =>
      rw [hd] at h
      simp only at h
      by_cases hle : 0 * 10 + d ≤ 2147483648
      · rw [if_pos hle] at h
        have hdz : d = 0 := by
          have := goDigitsNeg_mono t (0 * 10 + d) 0 h
          omega
        have hc : c = 48 := by
          unfold digitVal at hd
          by_cases hx : 48 ≤ c ∧ c ≤ 57
          · rw [if_pos hx] at hd
            simp only [Option.some.injEq] at hd
            omega
          · rw [if_neg hx] at hd; simp at hd
        rcases List.mem_cons.mp hb with hb | hb
        · subst hb; exact hc
        · apply ih _ b hb
          rw [show (0 : Nat) * 10 + d = 0 by omega] at h
          exact h
      · rw [if_neg hle] at h
        simp at h

theorem goDigitsNeg_digits : ∀ (l : List Nat) (m v : Nat),
    goDigitsNeg m l = some v → ∀ b ∈ l, 48 ≤ b ∧ b ≤ 57 := by
  intro l
  induction l with
  | nil => intro m v _ b hb; simp at hb
  | cons c t ih =>
    intro m v h b hb
    simp only [goDigitsNeg] at h
    cases hd : digitVal c with
    | none => rw [hd] at h; simp at h
    | some d =>
      rw [hd] at h
      simp only at h
      by_cases hle : m * 10 + d ≤ 2147483648
      · rw [if_pos hle] at h
        rcases List.mem_cons.mp hb with hb | hb
        · subst hb
          unfold digitVal at hd
          by_cases hc : 48 ≤ b ∧ b ≤ 57
          · exact hc
          · rw [if_neg hc] at hd; simp at hd
        · exact ih (m * 10 + d) v h b hb
      · rw [if_neg hle] at h
        simp at h

theorem toDecimalBytes_digits (n : Nat) : ∀ b ∈ toDecimalBytes n, 48 ≤ b ∧ b ≤ 57 := by
  intro b hb
  unfold toDecimalBytes at hb
  by_cases hn : n = 0
  · rw [if_pos hn] at hb
    simp at hb
    omega
  · rw [if_neg hn] at hb
    simp only [List.mem_map, List.mem_reverse] at hb
    obtain ⟨d, hd, hdb⟩ := hb
    have : d < 10 := Nat.digits_lt_base (by norm_num) hd
    omega

theorem toDecimalBytes_ne_nil (n : Nat) : toDecimalBytes n ≠ [] := by
  unfold toDecimalBytes
  by_cases hn : n = 0
  · rw [if_pos hn]; simp
  · rw [if_neg hn]
    simp only [ne_eq, List.map_eq_nil_iff, List.reverse_eq_nil_iff]
    exact Nat.digits_ne_nil_iff_ne_zero.mpr hn

theorem goDigitsU_decimal (bound n : Nat) (h : n ≤ bound) :
    goDigitsU bound 0 (toDecimalBytes n) = some n := by
  by_cases hn : n = 0
  · subst hn
    simp [toDecimalBytes, goDigitsU, digitVal]
  · unfold toDecimalBytes
    rw [if_neg hn]
    have hds : ∀ d ∈ (Nat.digits 10 n).reverse, d < 10 := by
      intro d hd
      exact Nat.digits_lt_base (by norm_num) (List.mem_reverse.mp hd)
    have hval : (0 : Nat) * 10 ^ (Nat.digits 10 n).reverse.length +
        Nat.ofDigits 10 (Nat.digits 10 n).reverse.reverse = n := by
      rw [List.reverse_reverse, Nat.ofDigits_digits]
      ring
    rw [goDigitsU_correct bound (Nat.digits 10 n).reverse 0 hds (by rw [hval]; exact h), hval]


theorem from_str_radix_unsigned_decimal (bound n : Nat) (h : n ≤ bound) :
    from_str_radix_unsigned bound (toDecimalBytes n) = some n := by
  cases hd : toDecimalBytes n with
  | nil => exact absurd hd (toDecimalBytes_ne_nil n)
  | cons b rest =>
    have hb : 48 ≤ b ∧ b ≤ 57 := by
      apply toDecimalBytes_digits n
      rw [hd]
      exact List.mem_cons_self b rest
    simp only [from_str_radix_unsigned]
    rw [if_neg (by rintro ⟨h1 | h1, h2⟩ <;> omega), if_neg (by omega : ¬ b = 43), ← hd]
    exact goDigitsU_decimal bound n h

theorem from_str_radix_i32_decimal (n : Nat) (h : n ≤ 2147483647) :
    from_str_radix_i32 (toDecimalBytes n) = some (Int.ofNat n) := by
  cases hd : toDecimalBytes n with
  | nil => exact absurd hd (toDecimalBytes_ne_nil n)
  | cons b rest =>
    have hb : 48 ≤ b ∧ b ≤ 57 := by
      apply toDecimalBytes_digits n
      rw [hd]
      exact List.mem_cons_self b rest
    simp only [from_str_radix_i32]
    rw [if_neg (by rintro ⟨h1 | h1, h2⟩ <;> omega), if_neg (by omega : ¬ b = 43),
      if_neg (by omega : ¬ b = 45), ← hd]
    rw [goDigitsU_decimal 2147483647 n h]
    rfl

theorem utf8Lossy_toDecimalBytes (n : Nat) :
    utf8Lossy (toDecimalBytes n) = toDecimalBytes n := by
  apply utf8Lossy_of_ascii
  intro b hb
  have := toDecimalBytes_digits n b hb
  omega

theorem MX_parse_decimal (n : Nat) (h1 : 1 ≤ n) (h2 : n ≤ 120) :
    MX.parse_header [toDecimalBytes n] = some (MX.mk n) := by
  simp only [MX.parse_header]
  rw [utf8Lossy_toDecimalBytes, from_str_radix_unsigned_decimal 255 n (by omega)]
  simp only [MX_HEADER_MIN, MX_HEADER_MAX]
  rw [if_pos ⟨h1, h2⟩]

theorem SearchPort_parse_decimal (n : Nat) (h1 : 49152 ≤ n) (h2 : n ≤ 65535) :
    SearchPort.parse_header [toDecimalBytes n] = some (SearchPort.mk n) := by
  simp only [SearchPort.parse_header]
  rw [utf8Lossy_toDecimalBytes, from_str_radix_unsigned_decimal 65535 n (by omega)]
  simp only [SEARCHPORT_MIN_VALUE, SEARCHPORT_MAX_VALUE]
  rw [if_pos ⟨h2, h1⟩]

theorem BootID_parse_decimal (n : Nat) (h : n ≤ 2147483647) :
    BootID.parse_header [toDecimalBytes n] = some (BootID.mk n) := by
  simp only [BootID.parse_header]
  rw [utf8Lossy_toDecimalBytes, from_str_radix_i32_decimal n h]
  simp

theorem ConfigID_parse_decimal (n : Nat) (h : n ≤ 2147483647) :
    ConfigID.parse_header [toDecimalBytes n] = some (ConfigID.mk n) := by
  simp only [ConfigID.parse_header]
  rw [utf8Lossy_toDecimalBytes, from_str_radix_i32_decimal n h]
  simp


theorem lossyGo_ne_of_invalid : ∀ n l, l.length ≤ n → validGo n l = false →
    lossyGo n l ≠ l := by
  intro n
  induction n with
  | zero =>
    intro l _ hv
    simp [validGo] at hv
  | succ n ih =>
    intro l hn hv
    cases l with
    | nil => simp [validGo] at hv
    | cons b0 t0 =>
      simp only [List.length_cons, Nat.add_le_add_iff_right] at hn
      simp only [lossyGo, validGo] at hv ⊢
      by_cases h0 : b0 < 128
      · simp only [if_pos h0] at hv ⊢
        intro heq
        exact ih t0 hn hv (by simpa using heq)
      simp only [if_neg h0] at hv ⊢
      by_cases h2 : 194 ≤ b0 ∧ b0 ≤ 223
      · simp only [if_pos h2] at hv ⊢
        cases t0 with
        | nil => simp [repBytes]
        | cons b1 t1 =>
          simp only [List.length_cons] at hn
          by_cases hc : isCont b1
          · simp only [if_pos hc] at hv ⊢
            intro heq
            exact ih t1 (by omega) hv (by simpa using heq)
          · simp only [if_neg hc] at hv ⊢
            intro heq
            simp [repBytes] at heq
            omega
      simp only [if_neg h2] at hv ⊢
      by_cases h3 : 224 ≤ b0 ∧ b0 ≤ 239
      · simp only [if_pos h3] at hv ⊢
        cases t0 with
        | nil => simp [repBytes]
        | cons b1 t1 =>
          simp only [List.length_cons] at hn
          by_cases hs : validSecond3 b0 b1
          · simp only [if_pos hs] at hv ⊢
            cases t1 with
            | nil => simp [repBytes]
            | cons b2 t2 =>
              simp only [List.length_cons] at hn
              by_cases hc : isCont b2
              · simp only [if_pos hc] at hv ⊢
                intro heq
                exact ih t2 (by omega) hv (by simpa using heq)
              · simp only [if_neg hc] at hv ⊢
                intro heq
                simp [repBytes] at heq
                obtain ⟨e0, e1, e2, _⟩ := heq
                unfold isCont at hc
                omega
          · simp only [if_neg hs] at hv ⊢
            intro heq
            simp [repBytes] at heq
            obtain ⟨e0, e1, _⟩ := heq
            apply hs
            unfold validSecond3 isCont
            omega
      simp only [if_neg h3] at hv ⊢
      by_cases h4 : 240 ≤ b0 ∧ b0 ≤ 244
      · simp only [if_pos h4] at hv ⊢
        cases t0 with
        | nil => simp [repBytes]
        | cons b1 t1 =>
          simp only [List.length_cons] at hn
          by_cases hs : validSecond4 b0 b1
          · simp only [if_pos hs] at hv ⊢
            cases t1 with
            | nil =>
              intro heq
              simp [repBytes] at heq
            | cons b2 t2 =>
              simp only [List.length_cons] at hn
              by_cases hc : isCont b2
              · simp only [if_pos hc] at hv ⊢
                cases t2 with
                | nil =>
                  intro heq
                  simp [repBytes] at heq
                  omega
                | cons b3 t3 =>
                  simp only [List.length_cons] at hn
                  by_cases hd : isCont b3
                  · simp only [if_pos hd] at hv ⊢
                    intro heq
                    exact ih t3 (by omega) hv (by simpa using heq)
                  · simp only [if_neg hd] at hv ⊢
                    intro heq
                    simp [repBytes] at heq
                    omega
              · simp only [if_neg hc] at hv ⊢
                intro heq
                simp [repBytes] at heq
                omega
          · simp only [if_neg hs] at hv ⊢
            intro heq
            simp [repBytes] at heq
            omega
      · simp only [if_neg h4] at hv ⊢
        intro heq
        cases t0 with
        | nil =>
          simp [repBytes] at heq
        | cons b1 t1 =>
          simp [repBytes] at heq
          omega

theorem utf8Lossy_ne_of_invalid (l : List Nat) (h : validUtf8 l = false) :
    utf8Lossy l ≠ l :=
  lossyGo_ne_of_invalid l.length l le_rfl h

theorem utf8Lossy_ne_nil (l : List Nat) (h : l ≠ []) : utf8Lossy l ≠ [] := by
  cases l with
  | nil => exact absurd rfl h
  | cons b0 t0 =>
    simp only [utf8Lossy, List.length_cons, lossyGo]
    repeat' split
    all_goals simp [repBytes]

theorem goDigitsU_minus_head (bound acc : Nat) (t : List Nat) :
    goDigitsU bound acc (45 :: t) = none := by
  simp [goDigitsU, digitVal]

theorem from_str_radix_unsigned_minus (bound : Nat) (rest : List Nat) :
    from_str_radix_unsigned bound (45 :: rest) = none := by
  simp only [from_str_radix_unsigned]
  by_cases hr : rest = []
  · rw [if_pos ⟨Or.inr trivial, hr⟩]
  · rw [if_neg (fun hc => hr hc.2), if_neg (by omega : ¬ (45 : Nat) = 43)]
    exact goDigitsU_minus_head bound 0 rest

theorem MX_parse_minus (rest : List Nat) : MX.parse_header [45 :: rest] = none := by
  simp only [MX.parse_header]
  rw [utf8Lossy_cons_ascii 45 rest (by omega), from_str_radix_unsigned_minus]

theorem SearchPort_parse_minus (rest : List Nat) :
    SearchPort.parse_header [45 :: rest] = none := by
  simp only [SearchPort.parse_header]
  rw [utf8Lossy_cons_ascii 45 rest (by omega), from_str_radix_unsigned_minus]

theorem BootID_parse_minus (rest : List Nat) (x : BootID) :
    BootID.parse_header [45 :: rest] = some x ↔
      x = BootID.mk 0 ∧ rest ≠ [] ∧ ∀ b ∈ rest, b = 48 := by
  simp only [BootID.parse_header]
  rw [utf8Lossy_cons_ascii 45 rest (by omega)]
  constructor
  · intro h
    simp only [from_str_radix_i32] at h
    by_cases hr : utf8Lossy rest = []
    · rw [if_pos ⟨Or.inr trivial, hr⟩] at h
      simp at h
    · rw [if_neg (fun hc => hr hc.2), if_neg (by omega : ¬ (45 : Nat) = 43),
        if_pos trivial] at h
      cases hm : goDigitsNeg 0 (utf8Lossy rest) with
      | none => rw [hm] at h; simp at h
      | some m =>
        rw [hm] at h
        simp only [Option.map_some', Option.some.injEq] at h
        by_cases hneg : -(Int.ofNat m) < 0
        · rw [if_pos hneg] at h
          simp at h
        · rw [if_neg hneg] at h
          have hm0 : m = 0 := by
            simp only [Int.ofNat_eq_natCast] at hneg
            omega
          subst hm0
          have hall : ∀ b ∈ utf8Lossy rest, b = 48 := goDigitsNeg_eq_zero _ hm
          have hid : utf8Lossy rest = rest := by
            apply utf8Lossy_ascii_out
            intro b hb
            have := hall b hb
            omega
          rw [hid] at hall
          refine ⟨?_, fun he => hr (by rw [he]; rfl), hall⟩
          simp only [Option.some.injEq] at h
          rw [← h]
          rfl
  · rintro ⟨hx, hne, hall⟩
    subst hx
    have hid : utf8Lossy rest = rest := by
      apply utf8Lossy_of_ascii
      intro b hb
      have := hall b hb
      omega
    rw [hid]
    simp only [from_str_radix_i32]
    rw [if_neg (fun hc => hne hc.2), if_neg (by omega : ¬ (45 : Nat) = 43),
      if_pos trivial, goDigitsNeg_zeros rest hall]
    simp

theorem ConfigID_parse_minus (rest : List Nat) (x : ConfigID) :
    ConfigID.parse_header [45 :: rest] = some x ↔
      x = ConfigID.mk 0 ∧ rest ≠ [] ∧ ∀ b ∈ rest, b = 48 := by
  simp only [ConfigID.parse_header]
  rw [utf8Lossy_cons_ascii 45 rest (by omega)]
  constructor
  · intro h
    simp only [from_str_radix_i32] at h
    by_cases hr : utf8Lossy rest = []
    · rw [if_pos ⟨Or.inr trivial, hr⟩] at h
      simp at h
    · rw [if_neg (fun hc => hr hc.2), if_neg (by omega : ¬ (45 : Nat) = 43),
        if_pos trivial] at h
      cases hm : goDigitsNeg 0 (utf8Lossy rest) with
      | none => rw [hm] at h; simp at h
      | some m =>
        rw [hm] at h
        simp only [Option.map_some', Option.some.injEq] at h
        by_cases hneg : -(Int.ofNat m) < 0
        · rw [if_pos hneg] at h
          simp at h
        · rw [if_neg hneg] at h
          have hm0 : m = 0 := by
            simp only [Int.ofNat_eq_natCast] at hneg
            omega
          subst hm0
          have hall : ∀ b ∈ utf8Lossy rest, b = 48 := goDigitsNeg_eq_zero _ hm
          have hid : utf8Lossy rest = rest := by
            apply utf8Lossy_ascii_out
            intro b hb
            have := hall b hb
            omega
          rw [hid] at hall
          refine ⟨?_, fun he => hr (by rw [he]; rfl), hall⟩
          simp only [Option.some.injEq] at h
          rw [← h]
          rfl
  · rintro ⟨hx, hne, hall⟩
    subst hx
    have hid : utf8Lossy rest = rest := by
      apply utf8Lossy_of_ascii
      intro b hb
      have := hall b hb
      omega
    rw [hid]
    simp only [from_str_radix_i32]
    rw [if_neg (fun hc => hne hc.2), if_neg (by omega : ¬ (45 : Nat) = 43),
      if_pos trivial, goDigitsNeg_zeros rest hall]
    simp


theorem MX_parse_range (raw : List (List Nat)) (x : MX)
    (h : MX.parse_header raw = some x) : 1 ≤ x.val ∧ x.val ≤ 120 := by
  match raw with
  | [] => simp [MX.parse_header] at h
  | _ :: _ :: _ => simp [MX.parse_header] at h
  | [line] =>
    simp only [MX.parse_header] at h
    cases hf : from_str_radix_unsigned 255 (utf8Lossy line) with
    | none => rw [hf] at h; simp at h
    | some n =>
      rw [hf] at h
      simp only [MX_HEADER_MIN, MX_HEADER_MAX] at h
      by_cases hc : 1 ≤ n ∧ n ≤ 120
      · rw [if_pos hc] at h
        simp only [Option.some.injEq] at h
        rw [← h]
        exact hc
      · rw [if_neg hc] at h
        simp at h

theorem SearchPort_parse_range (raw : List (List Nat)) (x : SearchPort)
    (h : SearchPort.parse_header raw = some x) : 49152 ≤ x.val ∧ x.val ≤ 65535 := by
  match raw with
  | [] => simp [SearchPort.parse_header] at h
  | _ :: _ :: _ => simp [SearchPort.parse_header] at h
  | [line] =>
    simp only [SearchPort.parse_header] at h
    cases hf : from_str_radix_unsigned 65535 (utf8Lossy line) with
    | none => rw [hf] at h; simp at h
    | some n =>
      rw [hf] at h
      simp only [SEARCHPORT_MIN_VALUE, SEARCHPORT_MAX_VALUE] at h
      by_cases hc : n ≤ 65535 ∧ 49152 ≤ n
      · rw [if_pos hc] at h
        simp only [Option.some.injEq] at h
        rw [← h]
        exact ⟨hc.2, hc.1⟩
      · rw [if_neg hc] at h
        simp at h

theorem from_str_radix_i32_le (s : List Nat) (v : Int)
    (h : from_str_radix_i32 s = some v) : v ≤ 2147483647 := by
  match s with
  | [] => simp [from_str_radix_i32] at h
  | b :: rest =>
    simp only [from_str_radix_i32] at h
    by_cases h1 : (b = 43 ∨ b = 45) ∧ rest = []
    · rw [if_pos h1] at h
      simp at h
    · rw [if_neg h1] at h
      by_cases h43 : b = 43
      · rw [if_pos h43] at h
        cases hg : goDigitsU 2147483647 0 rest with
        | none => rw [hg] at h; simp at h
        | some n =>
          rw [hg] at h
          simp only [Option.map_some', Option.some.injEq] at h
          have hle := goDigitsU_le 2147483647 rest 0 n (by omega) hg
          rw [← h]
          simp only [Int.ofNat_eq_natCast]
          omega
      · rw [if_neg h43] at h
        by_cases h45 : b = 45
        · rw [if_pos h45] at h
          cases hg : goDigitsNeg 0 rest with
          | none => rw [hg] at h; simp at h
          | some m =>
            rw [hg] at h
            simp only [Option.map_some', Option.some.injEq] at h
            rw [← h]
            simp only [Int.ofNat_eq_natCast]
            omega
        · rw [if_neg h45] at h
          cases hg : goDigitsU 2147483647 0 (b :: rest) with
          | none => rw [hg] at h; simp at h
          | some n =>
            rw [hg] at h
            simp only [Option.map_some', Option.some.injEq] at h
            have hle := goDigitsU_le 2147483647 (b :: rest) 0 n (by omega) hg
            rw [← h]
            simp only [Int.ofNat_eq_natCast]
            omega

theorem BootID_parse_range (raw : List (List Nat)) (x : BootID)
    (h : BootID.parse_header raw = some x) : x.val ≤ 2147483647 := by
  match raw with
  | [] => simp [BootID.parse_header] at h
  | _ :: _ :: _ => simp [BootID.parse_header] at h
  | [line] =>
    simp only [BootID.parse_header] at h
    cases hf : from_str_radix_i32 (utf8Lossy line) with
    | none => rw [hf] at h; simp at h
    | some v =>
      rw [hf] at h
      have hv := from_str_radix_i32_le (utf8Lossy line) v hf
      have h2 : (if v < 0 then none else some (BootID.mk v.toNat)) = some x := h
      by_cases hneg : v < 0
      · rw [if_pos hneg] at h2
        simp at h2
      · rw [if_neg hneg] at h2
        simp only [Option.some.injEq] at h2
        rw [← h2]
        simp only
        omega

theorem ConfigID_parse_range (raw : List (List Nat)) (x : ConfigID)
    (h : ConfigID.parse_header raw = some x) : x.val ≤ 2147483647 := by
  match raw with
  | [] => simp [ConfigID.parse_header] at h
  | _ :: _ :: _ => simp [ConfigID.parse_header] at h
  | [line] =>
    simp only [ConfigID.parse_header] at h
    cases hf : from_str_radix_i32 (utf8Lossy line) with
    | none => rw [hf] at h; simp at h
    | some v =>
      rw [hf] at h
      have hv := from_str_radix_i32_le (utf8Lossy line) v hf
      have h2 : (if v < 0 then none else some (ConfigID.mk v.toNat)) = some x := h
      by_cases hneg : v < 0
      · rw [if_pos hneg] at h2
        simp at h2
      · rw [if_neg hneg] at h2
        simp only [Option.some.injEq] at h2
        rw [← h2]
        simp only
        omega

theorem from_str_radix_unsigned_shape (bound : Nat) (s : List Nat) (v : Nat)
    (h : from_str_radix_unsigned bound s = some v) :
    ∃ ds, (s = ds ∨ s = 43 :: ds) ∧ ∀ b ∈ ds, 48 ≤ b ∧ b ≤ 57 := by
  match s with
  | [] => simp [from_str_radix_unsigned] at h
  | b :: rest =>
    simp only [from_str_radix_unsigned] at h
    by_cases h1 : (b = 43 ∨ b = 45) ∧ rest = []
    · rw [if_pos h1] at h
      simp at h
    · rw [if_neg h1] at h
      by_cases h43 : b = 43
      · rw [if_pos h43] at h
        exact ⟨rest, Or.inr (by rw [h43]), goDigitsU_digits bound rest 0 v h⟩
      · rw [if_neg h43] at h
        exact ⟨b :: rest, Or.inl rfl, goDigitsU_digits bound (b :: rest) 0 v h⟩

theorem from_str_radix_i32_shape (s : List Nat) (v : Int)
    (h : from_str_radix_i32 s = some v) :
    ∃ ds, (s = ds ∨ s = 43 :: ds ∨ s = 45 :: ds) ∧ ∀ b ∈ ds, 48 ≤ b ∧ b ≤ 57 := by
  match s with
  | [] => simp [from_str_radix_i32] at h
  | b :: rest =>
    simp only [from_str_radix_i32] at h
    by_cases h1 : (b = 43 ∨ b = 45) ∧ rest = []
    · rw [if_pos h1] at h
      simp at h
    · rw [if_neg h1] at h
      by_cases h43 : b = 43
      · rw [if_pos h43] at h
        cases hg : goDigitsU 2147483647 0 rest with
        | none => rw [hg] at h; simp at h
        | some n =>
          exact ⟨rest, Or.inr (Or.inl (by rw [h43])), goDigitsU_digits _ rest 0 n hg⟩
      · rw [if_neg h43] at h
        by_cases h45 : b = 45
        · rw [if_pos h45] at h
          cases hg : goDigitsNeg 0 rest with
          | none => rw [hg] at h; simp at h
          | some m =>
            exact ⟨rest, Or.inr (Or.inr (by rw [h45])), goDigitsNeg_digits rest 0 m hg⟩
        · rw [if_neg h45] at h
          cases hg : goDigitsU 2147483647 0 (b :: rest) with
          | none => rw [hg] at h; simp at h
          | some n =>
            exact ⟨b :: rest, Or.inl rfl, goDigitsU_digits _ (b :: rest) 0 n hg⟩

/-- A successful unsigned parse of the lossy conversion forces the raw line
to have been ASCII (sign and digits only), hence untouched by the
conversion. -/
theorem lossy_id_of_unsigned_parse (bound : Nat) (line : List Nat) (v : Nat)
    (h : from_str_radix_unsigned bound (utf8Lossy line) = some v) :
    utf8Lossy line = line := by
  obtain ⟨ds, hds, hdig⟩ := from_str_radix_unsigned_shape bound _ v h
  apply utf8Lossy_ascii_out
  intro b hb
  rcases hds with hds | hds <;> rw [hds] at hb
  · have := hdig b hb
    omega
  · rcases List.mem_cons.mp hb with hb | hb
    · omega
    · have := hdig b hb
      omega

/-- A successful `i32` parse of the lossy conversion forces the raw line to
have been ASCII (sign and digits only), hence untouched by the
conversion. -/
theorem lossy_id_of_i32_parse (line : List Nat) (v : Int)
    (h : from_str_radix_i32 (utf8Lossy line) = some v) :
    utf8Lossy line = line := by
  obtain ⟨ds, hds, hdig⟩ := from_str_radix_i32_shape _ v h
  apply utf8Lossy_ascii_out
  intro b hb
  rcases hds with hds | hds | hds <;> rw [hds] at hb
  · have := hdig b hb
    omega
  · rcases List.mem_cons.mp hb with hb | hb
    · omega
    · have := hdig b hb
      omega
  · rcases List.mem_cons.mp hb with hb | hb
    · omega
    · have := hdig b hb
      omega


/-! ## `src/header/st.rs` : the `ST` header -/

/-- Bytes of the `"ssdp:all"` literal (`ST_ALL_VALUE`). -/
def ST_ALL_VALUE : List Nat := [115, 115, 100, 112, 58, 97, 108, 108]

/-- The `ST` header value of `src/header/st.rs`. -/
inductive ST
  | All
  | Target (f : FieldMap)
deriving DecidableEq, Repr

/-- `ST::parse_header`: single line; the exact bytes `ssdp:all` yield
`ST::All`, anything else is parsed as a `FieldMap` target. -/
def ST.parse_header (raw : List (List Nat)) : Option ST :=
  match raw with
  | [line] =>
    if line = ST_ALL_VALUE then some ST.All
    else (FieldMap.parse_bytes line).map ST.Target
  | _ => none

/-- The `HeaderFormat` implementation for `ST` from `src/header/st.rs`. -/
def ST.fmt_header : ST → List Nat
  | ST.All => ST_ALL_VALUE
  | ST.Target f => FieldMap.fmt f

/-! ## `src/net/sender.rs` : the UDP send stream -/

/-- The rewriting loop in `<UdpSender as Write>::write` of
`src/net/sender.rs`: `firstByte` is `buf[0]`, `found` the mutable flag; a
`'/'` byte (47) becomes `'*'` (42) when the flag is down and the buffer does
not begin with `'H'` (72). -/
def udpWriteLoop (firstByte : Nat) : Bool → List Nat → List Nat
  | _, [] => []
  | found, src :: rest =>
    if src = 47 ∧ found = false ∧ firstByte ≠ 72 then
      42 :: udpWriteLoop firstByte true rest
    else
      src :: udpWriteLoop firstByte found rest

/-- `<UdpSender as Write>::write` of `src/net/sender.rs`: the byte-for-byte
copy of the buffer with the rewriting loop applied. -/
def udpSenderWrite (buf : List Nat) : List Nat :=
  match buf with
  | [] => []
  | firstByte :: _ => udpWriteLoop firstByte false buf

/-- Spec-side transformation: replace exactly the first `'/'` byte by `'*'`
and keep every other byte. -/
def replaceFirstSlash : List Nat → List Nat
  | [] => []
  | b :: rest => if b = 47 then 42 :: rest else b :: replaceFirstSlash rest

/-! ## `src/net/mod.rs` : multicast membership -/

/-- The `IpAddr` enum of `src/net/mod.rs` (the issue-27801 shim); the
payloads abstract the four-byte / sixteen-byte addresses. -/
inductive NetIpAddr
  | V4 (a : Nat)
  | V6 (a : Nat)
deriving DecidableEq, Repr

/-- Direction of an IPv4 membership `setsockopt`
(`IP_ADD_MEMBERSHIP` / `IP_DROP_MEMBERSHIP`). -/
inductive MembershipOp
  | add
  | drop
deriving DecidableEq, Repr

/-- The error kinds surfaced by the multicast helpers; only `InvalidInput`
is produced by the dispatch itself. -/
inductive IoErrorKind
  | invalidInput
deriving DecidableEq, Repr

/-- `join_multicast` of `src/net/mod.rs`: on a V4 interface and V4 group it
performs `set_membership_ipv4 .. IP_ADD_MEMBERSHIP` (returned here as the
action's arguments); a V6/V6 pair is rejected as unsupported and a mixed
pair as a version mismatch, both with `InvalidInput`. -/
def join_multicast (iface_addr mcast_addr : NetIpAddr) :
    Except IoErrorKind (Nat × Nat × MembershipOp) :=
  match iface_addr, mcast_addr with
  | NetIpAddr.V4 i, NetIpAddr.V4 m => Except.ok (i, m, MembershipOp.add)
  | NetIpAddr.V6 _, NetIpAddr.V6 _ => Except.error IoErrorKind.invalidInput
  | _, _ => Except.error IoErrorKind.invalidInput

/-- `leave_multicast` of `src/net/mod.rs`: same dispatch with
`IP_DROP_MEMBERSHIP`. -/
def leave_multicast (iface_addr mcast_addr : NetIpAddr) :
    Except IoErrorKind (Nat × Nat × MembershipOp) :=
  match iface_addr, mcast_addr with
  | NetIpAddr.V4 i, NetIpAddr.V4 m => Except.ok (i, m, MembershipOp.drop)
  | NetIpAddr.V6 _, NetIpAddr.V6 _ => Except.error IoErrorKind.invalidInput
  | _, _ => Except.error IoErrorKind.invalidInput

/-! ## `src/message/search.rs` : search timeouts -/

/-- `NETWORK_TIMEOUT_OVERHEAD` from `src/message/search.rs` (a `u8`). -/
def NETWORK_TIMEOUT_OVERHEAD : Nat := 1

/-- `DEFAULT_UNICAST_TIMEOUT` from `src/message/search.rs`
(`1 + NETWORK_TIMEOUT_OVERHEAD`). -/
def DEFAULT_UNICAST_TIMEOUT : Nat := 1 + NETWORK_TIMEOUT_OVERHEAD

/-- The `MsgError` of `src/error.rs`: a validation error wrapping a
message string. -/
structure MsgError where
  msg : String
deriving DecidableEq, Repr

/-- The message of the `MsgError` raised by `multicast_timeout`. -/
def MULTICAST_MX_ERROR : String := "Multicast Searches Require An MX Header"

/-- `multicast_timeout` from `src/message/search.rs`: `MX + 1` seconds
(`u8` addition, hence modulo 256), a missing `MX` is a `MsgError`. -/
def multicast_timeout (mx : Option MX) : Except MsgError Nat :=
  match mx with
  | some m => Except.ok ((m.val + NETWORK_TIMEOUT_OVERHEAD) % 256)
  | none => Except.error (MsgError.mk MULTICAST_MX_ERROR)

/-- `opt_unicast_timeout` from `src/message/search.rs`: `MX + 1` seconds
when `MX` is present (`u8` addition, modulo 256), otherwise the default of
`DEFAULT_UNICAST_TIMEOUT` seconds. -/
def opt_unicast_timeout (mx : Option MX) : Option Nat :=
  match mx with
  | some m => some ((m.val + NETWORK_TIMEOUT_OVERHEAD) % 256)
  | none => some DEFAULT_UNICAST_TIMEOUT


/-! ## `src/message/ssdp.rs` : datagram parse and validation

The HTTP tokenizer (`hyper::http::h1::parse_request` / `parse_response`)
is an external collaborator; its outcome on the datagram is therefore a
parameter (`reqParse` / `respParse`) of the embedded `raw_ssdp`, and the
`hyper` data carried through (`Headers`, `Method`, `RequestUri`,
`HttpVersion`, `RawStatus`) is modelled by the fields the validation logic
inspects. -/

/-- `hyper::version::HttpVersion` (those distinguishable by the check
`version != Http11`). -/
inductive HttpVersion
  | Http10
  | Http11
  | Http20
deriving DecidableEq, Repr

/-- `hyper::method::Method`: an extension method carrying its name, or a
standard method rendered by `to_string`. -/
inductive RMethod
  | extension (name : String)
  | std (name : String)
deriving DecidableEq, Repr

/-- `hyper::uri::RequestUri`. -/
inductive RequestUri
  | Star
  | AbsolutePath (s : String)
  | Authority (s : String)
  | AbsoluteUri (s : String)
deriving DecidableEq, Repr

/-- The one aspect of `hyper::header::Headers` the validation logic
inspects: whether a `Host` header is present. -/
structure Headers where
  hasHost : Bool
deriving DecidableEq, Repr

/-- Incoming message parts (`hyper::http::Incoming`). -/
structure Incoming (S : Type) where
  version : HttpVersion
  subject : S
  headers : Headers
deriving DecidableEq, Repr

/-- `MessageType` from `src/message/mod.rs`. -/
inductive MessageType
  | Notify
  | Search
  | Response
deriving DecidableEq, Repr

/-- `SSDPMessage` from `src/message/ssdp.rs`. -/
structure SSDPMessage where
  method : MessageType
  headers : Headers
deriving DecidableEq, Repr

/-- The SSDP error taxonomy of `src/error.rs` (the variants reachable from
`raw_ssdp`). -/
inductive SSDPError
  | InvalidHttp (raw : List Nat)
  | InvalidHttpVersion
  | InvalidMethod (s : String)
  | InvalidUri (s : String)
  | MissingHeader (name : String)
  | ResponseCode (code : Nat)
deriving DecidableEq, Repr

/-- `VALID_RESPONSE_CODE` from `src/message/ssdp.rs`. -/
def VALID_RESPONSE_CODE : Nat := 200

/-- `NOTIFY_METHOD` from `src/message/ssdp.rs`. -/
def NOTIFY_METHOD : String := "NOTIFY"

/-- `SEARCH_METHOD` from `src/message/ssdp.rs`. -/
def SEARCH_METHOD : String := "M-SEARCH"

/-- The `Host` header name (`hyper::header::Host::header_name()`). -/
def HOST_HEADER_NAME : String := "Host"

/-- `validate_http_version` from `src/message/ssdp.rs`. -/
def validate_http_version (version : HttpVersion) : Except SSDPError Unit :=
  if version ≠ HttpVersion.Http11 then Except.error SSDPError.InvalidHttpVersion
  else Except.ok ()

/-- `validate_http_host` from `src/message/ssdp.rs`. -/
def validate_http_host (headers : Headers) : Except SSDPError Unit :=
  if headers.hasHost = false then Except.error (SSDPError.MissingHeader HOST_HEADER_NAME)
  else Except.ok ()

/-- `validate_response_code` from `src/message/ssdp.rs`. -/
def validate_response_code (code : Nat) : Except SSDPError Unit :=
  if code ≠ VALID_RESPONSE_CODE then Except.error (SSDPError.ResponseCode code)
  else Except.ok ()

/-- `message_from_request` from `src/message/ssdp.rs`: version check (early
return via `try!`), `Host` check, then the match on (method, uri). -/
def message_from_request (parts : Incoming (RMethod × RequestUri)) :
    Except SSDPError SSDPMessage :=
  match validate_http_version parts.version with
  | Except.error e => Except.error e
  | Except.ok _ =>
    match validate_http_host parts.headers with
    | Except.error e => Except.error e
    | Except.ok _ =>
      match parts.subject with
      | (RMethod.extension n, RequestUri.Star) =>
        if n = NOTIFY_METHOD then
          Except.ok (SSDPMessage.mk MessageType.Notify parts.headers)
        else if n = SEARCH_METHOD then
          Except.ok (SSDPMessage.mk MessageType.Search parts.headers)
        else Except.error (SSDPError.InvalidMethod n)
      | (RMethod.std n, RequestUri.Star) => Except.error (SSDPError.InvalidMethod n)
      | (_, RequestUri.AbsolutePath n) => Except.error (SSDPError.InvalidUri n)
      | (_, RequestUri.Authority n) => Except.error (SSDPError.InvalidUri n)
      | (_, RequestUri.AbsoluteUri n) => Except.error (SSDPError.InvalidUri n)

/-- The `RawStatus` subject of a parsed response: status code and reason
phrase. -/
def RawStatus := Nat × String

/-- `message_from_response` from `src/message/ssdp.rs`: version check (early
return via `try!`), then response-code check. -/
def message_from_response (parts : Incoming (Nat × String)) :
    Except SSDPError SSDPMessage :=
  match validate_http_version parts.version with
  | Except.error e => Except.error e
  | Except.ok _ =>
    match validate_response_code parts.subject.1 with
    | Except.error e => Except.error e
    | Except.ok _ => Except.ok (SSDPMessage.mk MessageType.Response parts.headers)

/-- `FromRawSSDP::raw_ssdp` for `SSDPMessage` from `src/message/ssdp.rs`,
parameterised by the tokenizer outcomes: request parse attempted first, on
its failure the response parse, and when both fail the raw bytes are wrapped
in `InvalidHttp`. -/
def raw_ssdp (reqParse : Option (Incoming (RMethod × RequestUri)))
    (respParse : Option (Incoming (Nat × String))) (bytes : List Nat) :
    Except SSDPError SSDPMessage :=
  match reqParse with
  | some parts => message_from_request parts
  | none =>
    match respParse with
    | some parts => message_from_response parts
    | none => Except.error (SSDPError.InvalidHttp bytes)

/-! ## `src/receiver.rs` : `SSDPReceiver` and its worker loop -/

/-- One iteration's input to the worker loop `receive_packets` of
`src/receiver.rs`: the outcome of `recv_pckt()` together with, for a
successful read, the value the shared kill flag is observed to hold at the
following check. -/
inductive RecvEvent
  | readErr (kind : Nat)
  | readOk (bytes : List Nat) (addr : Nat) (killFlag : Bool)

/-- Result of running the worker loop over a finite event sequence: the
messages sent through the channel, and whether the loop returned. -/
structure LoopResult (T : Type) where
  sent : List (T × Nat)
  terminated : Bool
deriving DecidableEq, Repr

/-- `receive_packets` from `src/receiver.rs`, one iteration per event: a
read error of any kind continues the loop; a successful read first checks
the kill flag and returns when it is set; otherwise the datagram is parsed
with `T::raw_ssdp`, a parse failure continues, and a parsed message is sent
onward. -/
def receive_packets (parse : List Nat → Option T) : List RecvEvent → LoopResult T
  | [] => LoopResult.mk [] false
  | RecvEvent.readErr _ :: evs => receive_packets parse evs
  | RecvEvent.readOk bytes addr kill :: evs =>
    if kill then LoopResult.mk [] true
    else
      match parse bytes with
      | some t =>
        let r := receive_packets parse evs
        LoopResult.mk ((t, addr) :: r.sent) r.terminated
      | none => receive_packets parse evs

/-- The observable setup performed by `SSDPReceiver::new` of
`src/receiver.rs`: one worker thread per socket, a kill-timer thread
exactly when a timeout duration is supplied, and the list of read timeouts
installed on the sockets (`new` installs none; cancellation goes through
the kill flag and a wake-up datagram). -/
structure ReceiverInit where
  workerCount : Nat
  killTimerSpawned : Bool
  readTimeoutsSet : List Nat
deriving DecidableEq, Repr

/-- `SSDPReceiver::new` from `src/receiver.rs`, reduced to its observable
setup: `spawn_receivers` spawns one worker per socket, `maybe_spawn_timer`
spawns the kill timer iff a duration was given, and no call ever sets a
socket read timeout. -/
def ssdpReceiverNew (socks : List Nat) (time : Option Nat) : ReceiverInit :=
  ReceiverInit.mk socks.length time.isSome []

/-- Whether an event is a successful read that observes the kill flag. -/
def RecvEvent.isKill : RecvEvent → Bool
  | RecvEvent.readOk _ _ true => true
  | _ => false

/-- The message forwarded by one event, if any. -/
def RecvEvent.sentOf (parse : List Nat → Option T) : RecvEvent → Option (T × Nat)
  | RecvEvent.readOk bytes addr false => (parse bytes).map (fun t => (t, addr))
  | _ => none


theorem receive_packets_spec {T : Type} (parse : List Nat → Option T) :
    ∀ evs : List RecvEvent,
    receive_packets parse evs =
      LoopResult.mk
        ((evs.takeWhile (fun e => ! e.isKill)).filterMap (RecvEvent.sentOf parse))
        (evs.any RecvEvent.isKill) := by
  intro evs
  induction evs with
  | nil => rfl
  | cons e evs ih =>
    cases e with
    | readErr kind =>
      simp [receive_packets, RecvEvent.isKill, RecvEvent.sentOf, ih]
    | readOk bytes addr kill =>
      cases kill with
      | true => simp [receive_packets, RecvEvent.isKill]
      | false =>
        cases hp : parse bytes with
        | none =>
          simp [receive_packets, RecvEvent.isKill, RecvEvent.sentOf, hp, ih]
        | some t =>
          simp [receive_packets, RecvEvent.isKill, RecvEvent.sentOf, hp, ih]

theorem udpWriteLoop_found (firstByte : Nat) : ∀ l : List Nat,
    udpWriteLoop firstByte true l = l := by
  intro l
  induction l with
  | nil => rfl
  | cons b t ih => simp [udpWriteLoop, ih]

theorem udpWriteLoop_status_line : ∀ (l : List Nat) (found : Bool),
    udpWriteLoop 72 found l = l := by
  intro l
  induction l with
  | nil => intro found; rfl
  | cons b t ih =>
    intro found
    simp only [udpWriteLoop]
    rw [if_neg (by simp), ih found]

theorem udpWriteLoop_rewrite (firstByte : Nat) (h : firstByte ≠ 72) :
    ∀ l : List Nat, udpWriteLoop firstByte false l = replaceFirstSlash l := by
  intro l
  induction l with
  | nil => rfl
  | cons b t ih =>
    by_cases hb : b = 47
    · subst hb
      simp [udpWriteLoop, replaceFirstSlash, h, udpWriteLoop_found]
    · simp [udpWriteLoop, replaceFirstSlash, hb, ih]

/-- The UDP writer copies a status line (leading `'H'`) verbatim and
otherwise rewrites exactly the first `'/'` to `'*'`. -/
theorem udpSenderWrite_spec (buf : List Nat) :
    udpSenderWrite buf =
      if buf.head? = some 72 then buf else replaceFirstSlash buf := by
  cases buf with
  | nil => rfl
  | cons b t =>
    by_cases hb : b = 72
    · subst hb
      simp only [udpSenderWrite, List.head?_cons, if_pos rfl]
      exact udpWriteLoop_status_line (72 :: t) false
    · simp only [udpSenderWrite, List.head?_cons]
      rw [if_neg (by simp [hb]), udpWriteLoop_rewrite b hb]


/-! ## Claim theorems -/

/-- Claim C6: for every byte buffer written to the UDP send stream, a buffer
beginning with the byte `H` (an HTTP status line) is copied verbatim, and
otherwise exactly the first `/` byte is replaced by `*` with every other
byte (including subsequent `/` bytes) preserved. -/
theorem claim_C6 (buf : List Nat) :
    udpSenderWrite buf =
      if buf.head? = some 72 then buf else replaceFirstSlash buf :=
  udpSenderWrite_spec buf

/-- Claim C7, counterexample: `join_multicast` (and `leave_multicast`) with
an IPv6 interface address and an IPv6 group address — the same address
family — still returns the `InvalidInput` error, contradicting "InvalidInput
exactly when the families differ" (IPv6 membership is unsupported in this
code). -/
theorem claim_C7_counterexample :
    join_multicast (NetIpAddr.V6 0) (NetIpAddr.V6 0) =
      Except.error IoErrorKind.invalidInput ∧
    leave_multicast (NetIpAddr.V6 0) (NetIpAddr.V6 0) =
      Except.error IoErrorKind.invalidInput := by
  exact ⟨rfl, rfl⟩

/-- Claim C7, amended: `join_multicast` performs the IPv4 membership add on
the interface IP exactly when both addresses are IPv4, `leave_multicast`
mirrors it with the drop operation, and every other combination — mixed
families or two IPv6 addresses — returns `InvalidInput`. -/
theorem claim_C7 (iface mcast : NetIpAddr) :
    join_multicast iface mcast =
      (match iface, mcast with
       | NetIpAddr.V4 i, NetIpAddr.V4 m => Except.ok (i, m, MembershipOp.add)
       | _, _ => Except.error IoErrorKind.invalidInput) ∧
    leave_multicast iface mcast =
      (match iface, mcast with
       | NetIpAddr.V4 i, NetIpAddr.V4 m => Except.ok (i, m, MembershipOp.drop)
       | _, _ => Except.error IoErrorKind.invalidInput) := by
  cases iface <;> cases mcast <;> exact ⟨rfl, rfl⟩

/-- Claim C9: for a search request, the multicast timeout is `MX + 1`
seconds and a missing `MX` header fails synchronously with the validation
error; the unicast timeout is `MX + 1` seconds when `MX` is present and 2
seconds otherwise. (The `u8` addition is exact for every documented `MX`
value 1 ..= 120.) -/
theorem claim_C9 (n : Nat) (h1 : 1 ≤ n) (h2 : n ≤ 120) :
    multicast_timeout (some (MX.mk n)) = Except.ok (n + 1) ∧
    opt_unicast_timeout (some (MX.mk n)) = some (n + 1) ∧
    multicast_timeout none = Except.error (MsgError.mk MULTICAST_MX_ERROR) ∧
    opt_unicast_timeout none = some 2 := by
  have hm : (n + NETWORK_TIMEOUT_OVERHEAD) % 256 = n + 1 := by
    rw [NETWORK_TIMEOUT_OVERHEAD]
    exact Nat.mod_eq_of_lt (by omega)
  refine ⟨?_, ?_, rfl, rfl⟩
  · simp [multicast_timeout, hm]
  · simp [opt_unicast_timeout, hm]

theorem claim_C9_witness :
    multicast_timeout (some (MX.mk 5)) = Except.ok 6 ∧
    opt_unicast_timeout (some (MX.mk 5)) = some 6 ∧
    multicast_timeout none = Except.error (MsgError.mk MULTICAST_MX_ERROR) ∧
    opt_unicast_timeout none = some 2 :=
  claim_C9 5 (by decide) (by decide)

/-- Claim C3, counterexample: the publicly constructible value
`FieldMap::unknown("upnp", "x")` formats to the bytes of `upnp:x`, which
parse back to `FieldMap::UPnP("x")`, a different value — so
`parse(format(x)) = x` fails for arbitrary constructor arguments. -/
theorem claim_C3_counterexample :
    FieldMap.parse_bytes (FieldMap.fmt (FieldMap.Unknown upnpKeyBytes [120])) =
      some (FieldMap.UPnP [120]) ∧
    FieldMap.UPnP [120] ≠ FieldMap.Unknown upnpKeyBytes [120] := by
  decide

/-- Claim C3, amended: `parse(format(x)) = x` holds for every `FieldMap`
value whose payloads are strings (valid UTF-8) with a non-empty value and —
for `Unknown` — a non-empty, colon-free key distinct from the reserved
`uuid` / `urn` / `upnp` keys. -/
theorem claim_C3 (x : FieldMap) (h : FieldMap.wf x) :
    FieldMap.parse_bytes (FieldMap.fmt x) = some x :=
  parse_bytes_fmt_of_wf x h

theorem claim_C3_witness :
    FieldMap.wf (FieldMap.UUID [97]) ∧
    FieldMap.parse_bytes (FieldMap.fmt (FieldMap.UUID [97])) =
      some (FieldMap.UUID [97]) :=
  ⟨by decide, claim_C3 (FieldMap.UUID [97]) (by decide)⟩

/-- Claim C4, counterexample: `FieldMap::parse_bytes` on the bytes of
`uuid:` followed by the non-UTF-8 byte `0x80` stores the U+FFFD replacement
bytes, not the raw input byte — lossy conversion happens at parse time, so
non-UTF-8 bytes are not preserved. -/
theorem claim_C4_counterexample :
    FieldMap.parse_bytes [117, 117, 105, 100, 58, 128] =
      some (FieldMap.UUID repBytes) ∧
    repBytes ≠ [128] := by
  decide

/-- Claim C4, amended: for every input presented as a colon-free key, the
first colon, and a value, the payloads stored by `FieldMap::parse_bytes`
are the lossy UTF-8 conversion of the raw key and value segments — on
every input, non-UTF-8 segments included; a segment's raw bytes are
carried unchanged exactly when it is valid UTF-8, and a segment holding
non-UTF-8 bytes is altered by the conversion (U+FFFD substitution), not
preserved. -/
theorem claim_C4 (k v : List Nat) (hk : ∀ b ∈ k, b ≠ PAIR_SEPARATOR) :
    FieldMap.parse_bytes (k ++ PAIR_SEPARATOR :: v) =
      (if k.length = 0 ∨ v.length = 0 then none
      else if utf8Lossy k = uuidKeyBytes then some (FieldMap.UUID (utf8Lossy v))
      else if utf8Lossy k = urnKeyBytes then some (FieldMap.URN (utf8Lossy v))
      else if utf8Lossy k = upnpKeyBytes then some (FieldMap.UPnP (utf8Lossy v))
      else some (FieldMap.Unknown (utf8Lossy k) (utf8Lossy v))) ∧
    (validUtf8 v = true → utf8Lossy v = v) ∧
    (validUtf8 v = false → utf8Lossy v ≠ v) ∧
    (validUtf8 k = true → utf8Lossy k = k) ∧
    (validUtf8 k = false → utf8Lossy k ≠ k) :=
  ⟨parse_bytes_split k v hk,
    utf8Lossy_of_valid v, utf8Lossy_ne_of_invalid v,
    utf8Lossy_of_valid k, utf8Lossy_ne_of_invalid k⟩

theorem claim_C4_witness :
    FieldMap.parse_bytes [117, 117, 105, 100, 58, 128] =
      some (FieldMap.UUID (utf8Lossy [128])) ∧
    utf8Lossy [128] ≠ [128] := by
  have h := claim_C4 [117, 117, 105, 100] [128] (by decide)
  refine ⟨?_, h.2.2.1 (by decide)⟩
  have h1 := h.1
  rw [show ([117, 117, 105, 100] ++ PAIR_SEPARATOR :: [128] : List Nat) =
    [117, 117, 105, 100, 58, 128] from rfl] at h1
  rw [h1]
  rw [if_neg (by decide), if_pos (by decide)]

/-- Claim C10, counterexample: the universal round-trip part fails: the
constructible value `ST::Target(FieldMap::Unknown("upnp", "x"))` formats to
`upnp:x`, which differs from `ssdp:all` yet parses back to
`ST::Target(FieldMap::UPnP("x"))`, a different value. -/
theorem claim_C10_counterexample :
    ST.fmt_header (ST.Target (FieldMap.Unknown upnpKeyBytes [120])) ≠ ST_ALL_VALUE ∧
    ST.parse_header [ST.fmt_header (ST.Target (FieldMap.Unknown upnpKeyBytes [120]))] =
      some (ST.Target (FieldMap.UPnP [120])) ∧
    ST.Target (FieldMap.UPnP [120]) ≠ ST.Target (FieldMap.Unknown upnpKeyBytes [120]) := by
  decide

/-- Claim C10, amended: formatting `ST::Target(FieldMap::Unknown("ssdp",
"all"))` produces the exact bytes `ssdp:all`, which parse back to `ST::All`
rather than the original value (the parse/format pair is not injective
there); `ST::All` round-trips, and every target built from a well-formed
`FieldMap` whose formatted form differs from `ssdp:all` round-trips. -/
theorem claim_C10 :
    ST.fmt_header (ST.Target (FieldMap.Unknown [115, 115, 100, 112] [97, 108, 108])) =
      ST_ALL_VALUE ∧
    ST.parse_header [ST_ALL_VALUE] = some ST.All ∧
    ST.parse_header [ST.fmt_header ST.All] = some ST.All ∧
    (∀ f : FieldMap, FieldMap.wf f → FieldMap.fmt f ≠ ST_ALL_VALUE →
      ST.parse_header [ST.fmt_header (ST.Target f)] = some (ST.Target f)) := by
  refine ⟨by decide, by decide, by decide, ?_⟩
  intro f hwf hne
  simp only [ST.parse_header, ST.fmt_header]
  rw [if_neg hne, parse_bytes_fmt_of_wf f hwf]
  rfl

theorem claim_C10_witness :
    ST.parse_header [ST.fmt_header (ST.Target (FieldMap.UUID [97]))] =
      some (ST.Target (FieldMap.UUID [97])) :=
  claim_C10.2.2.2 (FieldMap.UUID [97]) (by decide) (by decide)


/-- Claim C5, counterexample: `SSDPReceiver::new` installs no socket read
timeout (here with one socket and a 5-second timeout the installed list is
empty, not `[5]`), and the worker loop does not terminate on a read error —
the platform's read-timeout error included — but continues. -/
theorem claim_C5_counterexample :
    (ssdpReceiverNew [0] (some 5)).readTimeoutsSet ≠ [5] ∧
    ¬ (receive_packets (fun _ => (none : Option Nat)) [RecvEvent.readErr 0]).terminated = true := by
  decide

/-- Claim C5, amended: `SSDPReceiver::new` spawns one worker per socket and
a kill-timer thread exactly when a timeout is supplied, and installs no
socket read timeouts; each worker loop continues on every read error
(timeouts included), and on a successful read returns exactly when it
observes the kill flag set, otherwise forwarding the parsed message and
continuing on a parse error — so the messages sent are the parses of the
successful reads before the first observed kill. -/
theorem claim_C5 (T : Type) (parse : List Nat → Option T) :
    (∀ socks time, ssdpReceiverNew socks time =
      ReceiverInit.mk socks.length time.isSome []) ∧
    (∀ kind evs, receive_packets parse (RecvEvent.readErr kind :: evs) =
      receive_packets parse evs) ∧
    (∀ evs, receive_packets parse evs =
      LoopResult.mk
        ((evs.takeWhile (fun e => ! e.isKill)).filterMap (RecvEvent.sentOf parse))
        (evs.any RecvEvent.isKill)) := by
  refine ⟨fun socks time => rfl, fun kind evs => rfl, receive_packets_spec parse⟩

/-- Claim C2, counterexample: the single-line USN value `uuid:abc::junk`
has a non-empty second part `junk` that fails to parse as a `FieldMap`, so
by the claim the parse must fail; the code instead succeeds, folding the
unparsable second part into absence. -/
theorem claim_C2_counterexample :
    FieldMap.parse_bytes [106, 117, 110, 107] = none ∧
    USN.parse_header [[117, 117, 105, 100, 58, 97, 98, 99, 58, 58, 106, 117, 110, 107]] =
      some (USN.mk (FieldMap.UUID [97, 98, 99]) none) := by
  decide

/-- Claim C2, amended: a single-line USN value splits at the first
occurrence of two consecutive colons; the part before the split, after
stripping up to two trailing colons, is parsed as the first pair, and the
part after the split, when non-empty, as the optional second pair with a
failed second-pair parse folded into absence; parsing fails exactly when
the first part is empty or fails to parse as a `FieldMap`. In particular
`uuid:device-UUID::upnp:rootdevice` parses to
(UUID "device-UUID", some (UPnP "rootdevice")), `upnp:device-UPnP::`
parses with no second pair, and `some-key:device-UPnP:` parses to
Unknown("some-key", "device-UPnP") with no second pair. -/
theorem claim_C2 :
    (∀ line, USN.parse_header [line] = usnSpecParse line) ∧
    USN.parse_header [[117, 117, 105, 100, 58, 100, 101, 118, 105, 99, 101, 45, 85, 85, 73, 68, 58, 58, 117, 112, 110, 112, 58, 114, 111, 111, 116, 100, 101, 118, 105, 99, 101]] =
      some (USN.mk (FieldMap.UUID [100, 101, 118, 105, 99, 101, 45, 85, 85, 73, 68])
        (some (FieldMap.UPnP [114, 111, 111, 116, 100, 101, 118, 105, 99, 101]))) ∧
    USN.parse_header [[117, 112, 110, 112, 58, 100, 101, 118, 105, 99, 101, 45, 85, 80, 110, 80, 58, 58]] =
      some (USN.mk (FieldMap.UPnP [100, 101, 118, 105, 99, 101, 45, 85, 80, 110, 80]) none) ∧
    USN.parse_header [[115, 111, 109, 101, 45, 107, 101, 121, 58, 100, 101, 118, 105, 99, 101, 45, 85, 80, 110, 80, 58]] =
      some (USN.mk (FieldMap.Unknown [115, 111, 109, 101, 45, 107, 101, 121] [100, 101, 118, 105, 99, 101, 45, 85, 80, 110, 80]) none) := by
  refine ⟨usn_parse_eq_spec, by decide, by decide, by decide⟩


/-- Claim C1: for every datagram, the request parse outcome is used first
and, on its failure, the response parse, with `InvalidHttp` carrying the raw
bytes when both fail; a parsed request is accepted — as Notify or Search
according to its method name — exactly when its version is 1.1, a `Host`
header is present and the target is `*`; a parsed response is accepted
exactly when its version is 1.1 and its status code is 200, and a version
-1.1 response with any other code yields the `ResponseCode` error. -/
theorem claim_C1 :
    (∀ bytes, raw_ssdp none none bytes =
      Except.error (SSDPError.InvalidHttp bytes)) ∧
    (∀ p r bytes, raw_ssdp (some p) r bytes = message_from_request p) ∧
    (∀ q bytes, raw_ssdp none (some q) bytes = message_from_response q) ∧
    (∀ p : Incoming (RMethod × RequestUri),
      ((∃ m, message_from_request p = Except.ok m) ↔
        (p.version = HttpVersion.Http11 ∧ p.headers.hasHost = true ∧
         p.subject.2 = RequestUri.Star ∧
         (p.subject.1 = RMethod.extension NOTIFY_METHOD ∨
          p.subject.1 = RMethod.extension SEARCH_METHOD)))) ∧
    (∀ (p : Incoming (RMethod × RequestUri)) (m : SSDPMessage),
      message_from_request p = Except.ok m →
        m.headers = p.headers ∧
        ((p.subject.1 = RMethod.extension NOTIFY_METHOD ∧
            m.method = MessageType.Notify) ∨
         (p.subject.1 = RMethod.extension SEARCH_METHOD ∧
            m.method = MessageType.Search))) ∧
    (∀ q : Incoming (Nat × String),
      ((∃ m, message_from_response q = Except.ok m) ↔
        (q.version = HttpVersion.Http11 ∧ q.subject.1 = VALID_RESPONSE_CODE))) ∧
    (∀ q : Incoming (Nat × String), q.version = HttpVersion.Http11 →
      q.subject.1 ≠ VALID_RESPONSE_CODE →
      message_from_response q = Except.error (SSDPError.ResponseCode q.subject.1)) := by
  refine ⟨fun bytes => rfl, fun p r bytes => rfl, fun q bytes => rfl, ?_, ?_, ?_, ?_⟩
  · intro p
    obtain ⟨v, ⟨m, u⟩, ⟨hh⟩⟩ := p
    cases v <;> cases m <;> cases u <;> cases hh <;>
      simp [message_from_request, validate_http_version, validate_http_host,
        NOTIFY_METHOD, SEARCH_METHOD] <;>
      (try rename_i n) <;>
      (try (by_cases h1 : n = "NOTIFY" <;> by_cases h2 : n = "M-SEARCH" <;>
        simp [h1, h2]))
  · intro p m hm
    obtain ⟨v, ⟨mth, u⟩, ⟨hh⟩⟩ := p
    cases v <;> cases mth <;> cases u <;> cases hh <;>
      simp [message_from_request, validate_http_version, validate_http_host,
        NOTIFY_METHOD, SEARCH_METHOD] at hm <;>
      (try rename_i n) <;>
      (try (by_cases h1 : n = "NOTIFY" <;> by_cases h2 : n = "M-SEARCH" <;>
        simp [h1, h2] at hm <;>
        simp [h1, h2, ← hm, NOTIFY_METHOD, SEARCH_METHOD]))
  · intro q
    obtain ⟨v, ⟨code, reason⟩, ⟨hh⟩⟩ := q
    cases v <;>
      simp [message_from_response, validate_http_version, validate_response_code,
        VALID_RESPONSE_CODE]
    by_cases hc : code = 200 <;> simp [hc]
  · intro q h1 h2
    obtain ⟨v, ⟨code, reason⟩, ⟨hh⟩⟩ := q
    simp only at h1 h2
    subst h1
    simp only [VALID_RESPONSE_CODE] at h2
    simp [message_from_response, validate_http_version, validate_response_code,
      VALID_RESPONSE_CODE, h2]


theorem claim_C1_witness :
    raw_ssdp none none [1, 2] = Except.error (SSDPError.InvalidHttp [1, 2]) ∧
    message_from_response
        (Incoming.mk HttpVersion.Http11 (404, "x") (Headers.mk true)) =
      Except.error (SSDPError.ResponseCode 404) :=
  ⟨claim_C1.1 [1, 2],
    claim_C1.2.2.2.2.2.2 (Incoming.mk HttpVersion.Http11 (404, "x") (Headers.mk true))
      rfl (by decide)⟩

/-- Claim C8, counterexample: `BootID::parse_header` accepts the input
`-00`, which is a leading-minus input other than `-0`, and yields 0 —
contradicting "the single exception ... the input `-0` ... while rejecting
any other leading `-`". -/
theorem claim_C8_counterexample :
    ([45, 48, 48] : List Nat) ≠ [45, 48] ∧
    BootID.parse_header [[45, 48, 48]] = some (BootID.mk 0) := by
  decide

/-- Claim C8, amended: for every integer in the documented range of each
numeric header (MX 1 ..= 120, SearchPort 49152 ..= 65535, BootID/ConfigID
0 ..= 2147483647) parsing its decimal rendering yields exactly that value;
a parse never succeeds outside the documented range; inputs whose bytes are
not an optional sign followed by decimal digits fail; MX and SearchPort
reject every leading `-`; and BootID/ConfigID accept a leading `-` exactly
when only zero digits follow it (value 0), rejecting any other leading
`-`. -/
theorem claim_C8 :
    (∀ n, 1 ≤ n → n ≤ 120 →
      MX.parse_header [toDecimalBytes n] = some (MX.mk n)) ∧
    (∀ n, 49152 ≤ n → n ≤ 65535 →
      SearchPort.parse_header [toDecimalBytes n] = some (SearchPort.mk n)) ∧
    (∀ n, n ≤ 2147483647 →
      BootID.parse_header [toDecimalBytes n] = some (BootID.mk n) ∧
      ConfigID.parse_header [toDecimalBytes n] = some (ConfigID.mk n)) ∧
    (∀ raw x, MX.parse_header raw = some x → 1 ≤ x.val ∧ x.val ≤ 120) ∧
    (∀ raw x, SearchPort.parse_header raw = some x →
      49152 ≤ x.val ∧ x.val ≤ 65535) ∧
    (∀ raw x, BootID.parse_header raw = some x → x.val ≤ 2147483647) ∧
    (∀ raw x, ConfigID.parse_header raw = some x → x.val ≤ 2147483647) ∧
    (∀ rest, MX.parse_header [45 :: rest] = none ∧
      SearchPort.parse_header [45 :: rest] = none) ∧
    (∀ rest x, BootID.parse_header [45 :: rest] = some x ↔
      (x = BootID.mk 0 ∧ rest ≠ [] ∧ ∀ b ∈ rest, b = 48)) ∧
    (∀ rest x, ConfigID.parse_header [45 :: rest] = some x ↔
      (x = ConfigID.mk 0 ∧ rest ≠ [] ∧ ∀ b ∈ rest, b = 48)) ∧
    (∀ line x, MX.parse_header [line] = some x →
      ∃ ds, (line = ds ∨ line = 43 :: ds) ∧ ∀ b ∈ ds, 48 ≤ b ∧ b ≤ 57) ∧
    (∀ line x, BootID.parse_header [line] = some x →
      ∃ ds, (line = ds ∨ line = 43 :: ds ∨ line = 45 :: ds) ∧
        ∀ b ∈ ds, 48 ≤ b ∧ b ≤ 57) := by
  refine ⟨MX_parse_decimal, SearchPort_parse_decimal,
    fun n h => ⟨BootID_parse_decimal n h, ConfigID_parse_decimal n h⟩,
    MX_parse_range, SearchPort_parse_range, BootID_parse_range,
    ConfigID_parse_range,
    fun rest => ⟨MX_parse_minus rest, SearchPort_parse_minus rest⟩,
    BootID_parse_minus, ConfigID_parse_minus, ?_, ?_⟩
  · intro line x h
    simp only [MX.parse_header] at h
    cases hf : from_str_radix_unsigned 255 (utf8Lossy line) with
    | none => rw [hf] at h; simp at h
    | some n =>
      have hid := lossy_id_of_unsigned_parse 255 line n hf
      rw [← hid]
      exact from_str_radix_unsigned_shape 255 _ n hf
  · intro line x h
    simp only [BootID.parse_header] at h
    cases hf : from_str_radix_i32 (utf8Lossy line) with
    | none => rw [hf] at h; simp at h
    | some v =>
      have hid := lossy_id_of_i32_parse line v hf
      rw [← hid]
      exact from_str_radix_i32_shape _ v hf

theorem claim_C8_witness :
    MX.parse_header [[49, 50, 48]] = some (MX.mk 120) ∧
    SearchPort.parse_header [[52, 57, 49, 53, 50]] = some (SearchPort.mk 49152) ∧
    BootID.parse_header [[50, 49, 52, 55, 52, 56, 51, 54, 52, 55]] =
      some (BootID.mk 2147483647) ∧
    MX.parse_header [[45, 53]] = none ∧
    BootID.parse_header [[45, 48]] = some (BootID.mk 0) := by
  refine ⟨?_, ?_, ?_, claim_C8.2.2.2.2.2.2.2.1 [53] |>.1, ?_⟩
  · have h := claim_C8.1 120 (by decide) (by decide)
    rwa [show toDecimalBytes 120 = [49, 50, 48] from by norm_num [toDecimalBytes, Nat.digits_def']] at h
  · have h := claim_C8.2.1 49152 (by decide) (by decide)
    rwa [show toDecimalBytes 49152 = [52, 57, 49, 53, 50] from by norm_num [toDecimalBytes, Nat.digits_def']] at h
  · have h := (claim_C8.2.2.1 2147483647 (by decide)).1
    rwa [show toDecimalBytes 2147483647 =
      [50, 49, 52, 55, 52, 56, 51, 54, 52, 55] from by
        norm_num [toDecimalBytes, Nat.digits_def']] at h
  · exact (claim_C8.2.2.2.2.2.2.2.2.1 [48] (BootID.mk 0)).mpr
      ⟨rfl, by decide, by decide⟩

end Ssdp
